import Mathlib

/-!
Verification development for the task-tracking tool in `T_Scheduler.py`.

The Python program defines a class `Task` holding a file path `json_file`
and a list `task_list`, with methods `load_from_json`, `save_to_json` and
`add_task`, plus two click commands `add` and `view`.  This file gives a
shallow embedding of that program:

* a task record (the dictionary built at `add_task` lines 51-57) becomes
  the structure `TaskRec`;
* the store's mutable state (`self.task_list` together with the contents
  of the file at `self.json_file`) becomes the structure `Store`; the
  persisted file is `Option String` (`none` models an absent file);
* `datetime.strptime(due_date, "%Y-%m-%d")` is modelled character by
  character after CPython's `_strptime` regular expressions for `%Y`
  (exactly four digits), `%m` (`1[0-2]|0[1-9]|[1-9]`) and
  `%d` (`3[01]|[12]\d|0[1-9]|[1-9]`), followed by the `datetime`
  constructor's range checks (year at least 1, day at most the length of
  the month in the proleptic Gregorian calendar);
* `json.dump(self.task_list, file, indent=4)` and `json.load(file)` are
  modelled by a renderer and a recursive-descent parser over `List Char`,
  mirroring the `json` module on the fragment the program writes and
  reads: JSON texts made of objects, arrays, strings (with the
  `ensure_ascii` escapes the encoder emits and the escapes the decoder
  accepts), integers, `null`, `true` and `false`.  Floating-point
  literals, `NaN`/`Infinity`, and lone surrogate escapes (which a Lean
  `String` cannot represent) are outside the fragment and the parser
  rejects them;
* raising `ValueError` becomes returning `Except.error` carrying the
  message and the state at the raise site; in `add_task` every `raise`
  happens before any mutation of `self.task_list` or any write, so the
  carried state is the entry state.
-/

/-- One task record: the dictionary `{"id": ..., "title": ..., "description": ...,
"due_date": ..., "priority": ...}` built in `Task.add_task`. -/
structure TaskRec where
  id : Int
  title : String
  description : String
  due_date : String
  priority : String
deriving Repr, DecidableEq

/-- The observable state of the program: the in-memory list `self.task_list`
and the contents of the persisted file at `self.json_file` (`none` when the
file does not exist).  The path itself never varies, so it is not carried. -/
structure Store where
  task_list : List TaskRec
  file : Option String
deriving Repr, DecidableEq

/-- Message of the `ValueError` raised at line 35 for an empty title. -/
def title_msg : String := "Title can\x27t be empty!"

/-- Message of the `ValueError` raised at line 39 for a bad priority. -/
def priority_msg : String := "Priority must be \x27Low\x27, \x27Medium\x27, or \x27High\x27"

/-- Message of the `ValueError` raised at line 45 for a bad due date. -/
def due_date_msg : String := "Due date must be in the following format: YYYY-MM-DD"

/-- The fixed list of valid priorities from line 38. -/
def priorities : List String := ["Low", "Medium", "High"]

/-- Numeric value of a decimal digit character. -/
def digitVal (c : Char) : Nat := c.toNat - 48

/-- Truth of a character being an ASCII digit `[0-9]` (codepoints 48 to
57).  This is the digit set of the C `_json` scanner that `json.load`
uses, which parses numbers byte by byte; it is NOT the digit set of the
`\d` class in `_strptime`'s regexes, which is Unicode-wide (see
`udigitVal`). -/
abbrev isDig (c : Char) : Prop := 48 ≤ c.toNat ∧ c.toNat ≤ 57

/-- Start codepoints of the 66 runs of ten consecutive characters of
Unicode category Nd (decimal digits), `0` to `9` in order within each run,
as in the Unicode data of the CPython build (3.11).  `_strptime` compiles
its regexes with `re.IGNORECASE` only, so the class `\d` matches every one
of these characters, and `int()` converts each to its decimal value. -/
def ndRangeStarts : List Nat :=
  [48, 1632, 1776, 1984, 2406, 2534, 2662, 2790, 2918, 3046, 3174, 3302,
   3430, 3558, 3664, 3792, 3872, 4160, 4240, 6112, 6160, 6470, 6608, 6784,
   6800, 6992, 7088, 7232, 7248, 42528, 43216, 43264, 43472, 43504, 43600,
   44016, 65296, 66720, 68912, 69734, 69872, 69942, 70096, 70384, 70736,
   70864, 71248, 71360, 71472, 71904, 72016, 72784, 73040, 73120, 92768,
   92864, 93008, 120782, 120792, 120802, 120812, 120822, 123200, 123632,
   125264, 130032]

/-- Decimal value of a character under CPython's `\d` class and `int()`:
`some` of its value when the character is a Unicode decimal digit
(category Nd), `none` otherwise. -/
def udigitVal (c : Char) : Option Nat :=
  (ndRangeStarts.find? (fun r => decide (r ≤ c.toNat) && decide (c.toNat ≤ r + 9))).map
    (fun r => c.toNat - r)

/-- Match of CPython's regex for `%Y`: exactly four characters of the
class `\d` (any Unicode decimal digits); `int()` then assembles their
decimal values. -/
def parseYear : List Char → Option (Nat × List Char)
  | c1 :: c2 :: c3 :: c4 :: rest =>
    match udigitVal c1, udigitVal c2, udigitVal c3, udigitVal c4 with
    | some d1, some d2, some d3, some d4 =>
      some (((d1 * 10 + d2) * 10 + d3) * 10 + d4, rest)
    | _, _, _, _ => none
  | _ => none

/-- Match of CPython's regex for `%m`, alternatives tried in order:
`1[0-2]`, then `0[1-9]`, then `[1-9]`.  All of these are literal ASCII
classes (the `%m` pattern contains no `\d`). -/
def parseMonth : List Char → Option (Nat × List Char)
  | c1 :: c2 :: rest =>
    if c1 = '1' ∧ 48 ≤ c2.toNat ∧ c2.toNat ≤ 50 then some (10 + digitVal c2, rest)
    else if c1 = '0' ∧ 49 ≤ c2.toNat ∧ c2.toNat ≤ 57 then some (digitVal c2, rest)
    else if 49 ≤ c1.toNat ∧ c1.toNat ≤ 57 then some (digitVal c1, c2 :: rest)
    else none
  | [c1] => if 49 ≤ c1.toNat ∧ c1.toNat ≤ 57 then some (digitVal c1, []) else none
  | [] => none

/-- Match of CPython's regex for `%d`, alternatives tried in order:
`3[01]`, then `[12]\d`, then `0[1-9]`, then `[1-9]`.  The literal classes
are ASCII, but the `\d` in the second alternative matches any Unicode
decimal digit. -/
def parseDay : List Char → Option (Nat × List Char)
  | c1 :: c2 :: rest =>
    if c1 = '3' ∧ 48 ≤ c2.toNat ∧ c2.toNat ≤ 49 then some (30 + digitVal c2, rest)
    else if (49 ≤ c1.toNat ∧ c1.toNat ≤ 50) ∧ (udigitVal c2).isSome = true then
      some (digitVal c1 * 10 + (udigitVal c2).getD 0, rest)
    else if c1 = '0' ∧ 49 ≤ c2.toNat ∧ c2.toNat ≤ 57 then some (digitVal c2, rest)
    else if 49 ≤ c1.toNat ∧ c1.toNat ≤ 57 then some (digitVal c1, c2 :: rest)
    else none
  | [c1] => if 49 ≤ c1.toNat ∧ c1.toNat ≤ 57 then some (digitVal c1, []) else none
  | [] => none

/-- Regex phase of `datetime.strptime(s, "%Y-%m-%d")`: year, literal `-`,
month, literal `-`, day, and then `_strptime`'s "unconverted data remains"
check, i.e. the match must reach the end of the string. -/
def strptimeYmd (s : String) : Option (Nat × Nat × Nat) :=
  match parseYear s.data with
  | none => none
  | some (y, r1) =>
    match r1 with
    | c1 :: r2 =>
      if c1 = '-' then
        match parseMonth r2 with
        | none => none
        | some (m, r3) =>
          match r3 with
          | c2 :: r4 =>
            if c2 = '-' then
              match parseDay r4 with
              | none => none
              | some (d, r5) => if r5 = [] then some (y, m, d) else none
            else none
          | [] => none
      else none
    | [] => none

/-- Leap-year rule of Python's `datetime` (proleptic Gregorian calendar). -/
def isLeap (y : Nat) : Bool := y % 4 == 0 && (y % 100 != 0 || y % 400 == 0)

/-- Number of days in a month, as checked by the `datetime` constructor. -/
def daysInMonth (y m : Nat) : Nat :=
  if m = 2 then (if isLeap y then 29 else 28)
  else if m = 4 ∨ m = 6 ∨ m = 9 ∨ m = 11 then 30
  else 31

/-- Truth of `datetime.strptime(s, "%Y-%m-%d")` succeeding: the regex phase
matches the whole string and the `datetime(year, month, day)` constructor
accepts the three fields (year at least `MINYEAR = 1`; the regex already
bounds the month by 12 and the day by 31, the constructor further bounds
the day by the month length). -/
def valid_Ymd (s : String) : Bool :=
  match strptimeYmd s with
  | none => false
  | some (y, m, d) => decide (1 ≤ y) && decide (d ≤ daysInMonth y m)

/-- Boolean ASCII digit test, used by the spec-words date model below. -/
def isDigB (c : Char) : Bool := decide (48 ≤ c.toNat) && decide (c.toNat ≤ 57)

/-- Definition following the spec's words rather than the source, for
comparison with the source's check `valid_Ymd`: a due date is "a real
calendar date in YYYY-MM-DD format" — exactly ten characters, four ASCII
digits, a hyphen, two ASCII digits, a hyphen, two ASCII digits, with year
at least 1, month 1 to 12, and day between 1 and the month's length. -/
def spec_Ymd_format (s : String) : Bool :=
  match s.data with
  | [y1, y2, y3, y4, h1, m1, m2, h2, d1, d2] =>
    isDigB y1 && isDigB y2 && isDigB y3 && isDigB y4 &&
    decide (h1 = '-') && decide (h2 = '-') &&
    isDigB m1 && isDigB m2 && isDigB d1 && isDigB d2 &&
    (decide (1 ≤ ((digitVal y1 * 10 + digitVal y2) * 10 + digitVal y3) * 10 + digitVal y4) &&
     decide (1 ≤ digitVal m1 * 10 + digitVal m2) &&
     decide (digitVal m1 * 10 + digitVal m2 ≤ 12) &&
     decide (1 ≤ digitVal d1 * 10 + digitVal d2) &&
     decide (digitVal d1 * 10 + digitVal d2 ≤
       daysInMonth
         (((digitVal y1 * 10 + digitVal y2) * 10 + digitVal y3) * 10 + digitVal y4)
         (digitVal m1 * 10 + digitVal m2)))
  | _ => false

/-- Python's `max(list, default=0)`: the default only applies to an empty
list, so a list of negative numbers keeps its (negative) maximum. -/
def max_default0 : List Int → Int
  | [] => 0
  | x :: xs => xs.foldl max x

/-- The id computed at line 48:
`max([task["id"] for task in self.task_list], default=0) + 1`. -/
def next_id (tasks : List TaskRec) : Int := max_default0 (tasks.map TaskRec.id) + 1

/-- The character `\x7b` (opening curly brace). -/
def lbraceChar : Char := Char.ofNat 123

/-- The character `\x7d` (closing curly brace). -/
def rbraceChar : Char := Char.ofNat 125

/-- Lowercase hexadecimal digit, as the `json` encoder emits. -/
def hexChar (n : Nat) : Char := if n < 10 then Char.ofNat (48 + n) else Char.ofNat (87 + n)

/-- Four lowercase hex digits of a value below `0x10000`. -/
def hex4 (n : Nat) : List Char :=
  [hexChar (n / 4096 % 16), hexChar (n / 256 % 16), hexChar (n / 16 % 16), hexChar (n % 16)]

/-- Escape of one character by `json.dump` with its default `ensure_ascii=True`:
quote and backslash get a backslash escape, the five named control characters
get their short forms, other characters below `0x20` and all characters from
`0x7f` up get `\uXXXX` escapes (a pair of surrogate escapes beyond `0xffff`),
and the printable ASCII range is emitted literally. -/
def escChar (c : Char) : List Char :=
  if c = '"' then ['\\', '"']
  else if c = '\\' then ['\\', '\\']
  else if c = '\x08' then ['\\', 'b']
  else if c = '\x0c' then ['\\', 'f']
  else if c = '\n' then ['\\', 'n']
  else if c = '\r' then ['\\', 'r']
  else if c = '\t' then ['\\', 't']
  else if c.toNat < 0x20 then '\\' :: 'u' :: hex4 c.toNat
  else if c.toNat < 0x7f then [c]
  else if c.toNat < 0x10000 then '\\' :: 'u' :: hex4 c.toNat
  else
    '\\' :: 'u' :: hex4 (0xD800 + (c.toNat - 0x10000) / 0x400)
      ++ '\\' :: 'u' :: hex4 ((c.toNat - 0x10000) % 0x400 + 0xDC00)

/-- Escape of a character list, character by character. -/
def escList : List Char → List Char
  | [] => []
  | c :: cs => escChar c ++ escList cs

/-- A JSON string literal: quote, escaped contents, quote. -/
def strChars (s : String) : List Char := '"' :: (escList s.data ++ ['"'])

/-- Decimal digits of a natural number, most significant first; the first
argument is structural fuel (`n + 1` always suffices, since `n / 10 < n`
for `n ≥ 10`). -/
def natToDigitsAux : Nat → Nat → List Char
  | 0, _ => []
  | fuel + 1, n =>
    if n < 10 then [Char.ofNat (48 + n)]
    else natToDigitsAux fuel (n / 10) ++ [Char.ofNat (48 + n % 10)]

/-- Decimal digits of a natural number, most significant first. -/
def natToDigits (n : Nat) : List Char := natToDigitsAux (n + 1) n

/-- Python's `str` of an `int`: optional minus sign, then decimal digits. -/
def intChars (i : Int) : List Char :=
  if i < 0 then '-' :: natToDigits (-i).toNat else natToDigits i.toNat

/-- Newline followed by the indentation of nesting level `k`, as emitted
between items by `json.dump` with `indent=4`. -/
def nlind (k : Nat) : List Char := '\n' :: List.replicate (4 * k) ' '

/-- One `"key": value` object member (the key separator is `": "`). -/
def memberChars (k : String) (v : List Char) : List Char := strChars k ++ ':' :: ' ' :: v

/-- Rendering of one task dictionary at nesting level 1, keys in the
insertion order of `Task.add_task` lines 51-57. -/
def renderTaskChars (t : TaskRec) : List Char :=
  lbraceChar :: (nlind 2 ++ memberChars "id" (intChars t.id)
    ++ ',' :: nlind 2 ++ memberChars "title" (strChars t.title)
    ++ ',' :: nlind 2 ++ memberChars "description" (strChars t.description)
    ++ ',' :: nlind 2 ++ memberChars "due_date" (strChars t.due_date)
    ++ ',' :: nlind 2 ++ memberChars "priority" (strChars t.priority)
    ++ nlind 1 ++ [rbraceChar])

/-- Rendering of the later items of a non-empty task array, each preceded by
the item separator `,` and a fresh indented line, then the closing bracket
on its own line. -/
def renderRest : List TaskRec → List Char
  | [] => nlind 0 ++ [']']
  | t :: ts => ',' :: (nlind 1 ++ renderTaskChars t ++ renderRest ts)

/-- Rendering of a task array: `json.dump(task_list, file, indent=4)`. -/
def renderTasks : List TaskRec → List Char
  | [] => ['[', ']']
  | t :: ts => '[' :: (nlind 1 ++ renderTaskChars t ++ renderRest ts)

/-- Method `Task.save_to_json` (lines 25-27): the exact text written to the
persisted file. -/
def save_to_json (tasks : List TaskRec) : String := String.mk (renderTasks tasks)

/-- JSON values, the result type of `json.load` on the modelled fragment
(Python integers for numbers; no floating-point constructor since the
program never writes one). -/
inductive JVal where
  | jnull
  | jbool (b : Bool)
  | jnum (n : Int)
  | jstr (s : String)
  | jarr (elems : List JVal)
  | jobj (members : List (String × JVal))

/-- Whitespace skipping of the decoder (`[ \t\n\r]*`). -/
def skipWs : List Char → List Char
  | [] => []
  | c :: cs => if c = ' ' ∨ c = '\t' ∨ c = '\n' ∨ c = '\r' then skipWs cs else c :: cs

/-- Value of one hexadecimal digit, either case, as `\uXXXX` escapes allow. -/
def hexVal (c : Char) : Option Nat :=
  if isDig c then some (c.toNat - 48)
  else if 97 ≤ c.toNat ∧ c.toNat ≤ 102 then some (c.toNat - 87)
  else if 65 ≤ c.toNat ∧ c.toNat ≤ 70 then some (c.toNat - 55)
  else none

/-- Value of four hexadecimal digits. -/
def hex4Val (a b c d : Char) : Option Nat :=
  match hexVal a, hexVal b, hexVal c, hexVal d with
  | some x, some y, some z, some w => some (((x * 16 + y) * 16 + z) * 16 + w)
  | _, _, _, _ => none

/-- Decoding of one `\uXXXX` escape, positioned after the `\u`: four hex
digits; a value outside the surrogate range yields that character; a
high-surrogate value followed immediately by a `\uXXXX` escape holding a
low surrogate combines into one character.  A lone surrogate escape (which
Python keeps as a lone surrogate code unit) has no `Char` counterpart and
is rejected as outside the modelled fragment. -/
def readUEsc : List Char → Option (Char × List Char)
  | a :: b :: c :: d :: cs3 =>
    (match hex4Val a b c d with
    | none => none
    | some n =>
      if n < 0xD800 ∨ 0xE000 ≤ n then some (Char.ofNat n, cs3)
      else if n < 0xDC00 then
        match cs3 with
        | b1 :: u1 :: a2 :: b2 :: c2 :: d2 :: cs5 =>
          if b1 = '\\' ∧ u1 = 'u' then
            match hex4Val a2 b2 c2 d2 with
            | none => none
            | some m =>
              if 0xDC00 ≤ m ∧ m < 0xE000 then
                some (Char.ofNat (0x10000 + (n - 0xD800) * 0x400 + (m - 0xDC00)), cs5)
              else none
          else none
        | _ => none
      else none)
  | _ => none

/-- Decoding of one escape sequence, positioned after the backslash: one of
the eight named escapes, or a `\uXXXX` escape. -/
def readEsc : List Char → Option (Char × List Char)
  | [] => none
  | e :: cs2 =>
    if e = '"' then some ('"', cs2)
    else if e = '\\' then some ('\\', cs2)
    else if e = '/' then some ('/', cs2)
    else if e = 'b' then some ('\x08', cs2)
    else if e = 'f' then some ('\x0c', cs2)
    else if e = 'n' then some ('\n', cs2)
    else if e = 'r' then some ('\r', cs2)
    else if e = 't' then some ('\t', cs2)
    else if e = 'u' then readUEsc cs2
    else none

/-- Decoder's reading of a string body after the opening quote, in the
default strict mode: a raw control character below `0x20` is an error, a
backslash introduces an escape sequence, any other character stands for
itself, and the closing quote ends the string.  Returns the content and the
characters after the closing quote.  The first argument is structural fuel,
an artifact of the embedding: every iteration consumes at least one input
character, so the `length + 1` supplied at the call sites never runs out. -/
def readStr : Nat → List Char → Option (List Char × List Char)
  | 0, _ => none
  | _ + 1, [] => none
  | fuel + 1, c :: cs =>
    if c = '"' then some ([], cs)
    else if c = '\\' then
      match readEsc cs with
      | none => none
      | some (ch, cs3) => (readStr fuel cs3).map (fun p => (ch :: p.1, p.2))
    else if c.toNat < 0x20 then none
    else (readStr fuel cs).map (fun p => (c :: p.1, p.2))

/-- Digits consumed greedily after the first, accumulating the value, as
the decoder's number regex `[1-9]\d*` does. -/
def readDigits : List Char → Nat → Nat × List Char
  | c :: cs, acc => if isDig c then readDigits cs (acc * 10 + digitVal c) else (acc, c :: cs)
  | [], acc => (acc, [])

/-- Guard that the matched digits are not followed by a fraction or an
exponent part: those make the decoder produce a `float`, which is outside
the modelled fragment (the program only ever writes integers). -/
def noFracExp : List Char → Bool
  | [] => true
  | c :: _ => ¬(c = '.' ∨ c = 'e' ∨ c = 'E')

/-- Unsigned number of the decoder's regex `(0|[1-9]\d*)`: a leading zero
matches alone, otherwise digits are consumed greedily. -/
def readPosNum : List Char → Option (Int × List Char)
  | [] => none
  | c :: rest =>
    if c = '0' then (if noFracExp rest then some (0, rest) else none)
    else if 49 ≤ c.toNat ∧ c.toNat ≤ 57 then
      match readDigits rest (digitVal c) with
      | (n, rest2) => if noFracExp rest2 then some ((n : Int), rest2) else none
    else none

/-- Signed number: optional minus sign, then an unsigned number. -/
def readNum : List Char → Option (Int × List Char)
  | [] => readPosNum []
  | c :: cs1 =>
    if c = '-' then (readPosNum cs1).map (fun p => (-p.1, p.2))
    else readPosNum (c :: cs1)

/-- Literal matching of a fixed character sequence (`null`, `true`,
`false`), as the scanner's `startswith` checks do. -/
def dropLit : List Char → List Char → Option (List Char)
  | [], cs => some cs
  | _ :: _, [] => none
  | p :: ps, c :: cs => if c = p then dropLit ps cs else none

mutual

/-- One JSON value, dispatched on its first character the way the decoder's
scanner is: string, array, object, the three literals, or a number.  The
first argument is recursion fuel, an artifact of the embedding: every call
consumes input, so the fuel supplied at top level (more than twice the
input length) never runs out. -/
def parseVal : Nat → List Char → Option (JVal × List Char)
  | 0, _ => none
  | fuel + 1, cs =>
    match cs with
    | [] => none
    | c :: cs1 =>
      if c = '"' then
        (readStr (cs1.length + 1) cs1).map (fun p => (JVal.jstr (String.mk p.1), p.2))
      else if c = '[' then
        match skipWs cs1 with
        | [] => none
        | d :: rest =>
          if d = ']' then some (JVal.jarr [], rest)
          else (parseElems fuel (d :: rest)).map (fun p => (JVal.jarr p.1, p.2))
      else if c = lbraceChar then
        match skipWs cs1 with
        | [] => none
        | d :: rest =>
          if d = rbraceChar then some (JVal.jobj [], rest)
          else (parseMembers fuel (d :: rest)).map (fun p => (JVal.jobj p.1, p.2))
      else if c = 'n' then (dropLit ['u', 'l', 'l'] cs1).map (fun rest => (JVal.jnull, rest))
      else if c = 't' then (dropLit ['r', 'u', 'e'] cs1).map (fun rest => (JVal.jbool true, rest))
      else if c = 'f' then
        (dropLit ['a', 'l', 's', 'e'] cs1).map (fun rest => (JVal.jbool false, rest))
      else if c = '-' ∨ isDig c then (readNum (c :: cs1)).map (fun p => (JVal.jnum p.1, p.2))
      else none

/-- Elements of a non-empty array, starting at the first value: value, then
after optional whitespace either `,` (and, after optional whitespace, more
elements) or the closing `]`. -/
def parseElems : Nat → List Char → Option (List JVal × List Char)
  | 0, _ => none
  | fuel + 1, cs =>
    match parseVal fuel cs with
    | none => none
    | some (v, r1) =>
      match skipWs r1 with
      | [] => none
      | c :: r2 =>
        if c = ',' then (parseElems fuel (skipWs r2)).map (fun p => (v :: p.1, p.2))
        else if c = ']' then some ([v], r2)
        else none

/-- Members of a non-empty object, starting at the first key's opening
quote: key string, optional whitespace, `:`, optional whitespace, value,
then after optional whitespace either `,` (and, after optional whitespace,
more members starting again at a quote) or the closing brace. -/
def parseMembers : Nat → List Char → Option (List (String × JVal) × List Char)
  | 0, _ => none
  | fuel + 1, cs =>
    match cs with
    | [] => none
    | c :: cs1 =>
      if c = '"' then
        match readStr (cs1.length + 1) cs1 with
        | none => none
        | some (k, r1) =>
          match skipWs r1 with
          | [] => none
          | c1 :: r2 =>
            if ¬c1 = ':' then none
            else
            match parseVal fuel (skipWs r2) with
            | none => none
            | some (v, r3) =>
              match skipWs r3 with
              | [] => none
              | c2 :: r4 =>
                if c2 = ',' then
                  (parseMembers fuel (skipWs r4)).map
                    (fun p => ((String.mk k, v) :: p.1, p.2))
                else if c2 = rbraceChar then some ([(String.mk k, v)], r4)
                else none
      else none

end

/-- Function `json.load` on the modelled fragment: skip leading whitespace,
read one value, skip trailing whitespace, and fail on extra data.  The fuel
`2 * length + 2` always suffices, since between two fuel-consuming calls at
least one input character is consumed. -/
def json_loads (s : String) : Option JVal :=
  match parseVal (2 * s.length + 2) (skipWs s.data) with
  | none => none
  | some (v, rest) => if skipWs rest = [] then some v else none

/-- Python dictionary lookup on the member list `json.load` built: a later
duplicate key overwrites an earlier one. -/
def dictGet (ms : List (String × JVal)) (k : String) : Option JVal :=
  ms.foldl (fun acc p => if p.1 = k then some p.2 else acc) none

/-- Typed reading of one loaded task dictionary: the five fields the
program accesses (`task["id"]`, `task["title"]`, `task["description"]`,
`task["due_date"]`, `task["priority"]`) with the types the program
assumes.  `json.load` itself imposes no shape; this is the shape every
value the program itself ever persists has. -/
def taskOfJson : JVal → Option TaskRec
  | JVal.jobj ms =>
    match dictGet ms "id", dictGet ms "title", dictGet ms "description",
        dictGet ms "due_date", dictGet ms "priority" with
    | some (JVal.jnum i), some (JVal.jstr t), some (JVal.jstr d),
        some (JVal.jstr dd), some (JVal.jstr p) => some ⟨i, t, d, dd, p⟩
    | _, _, _, _, _ => none
  | _ => none

/-- Typed reading of a loaded task collection: a JSON array of task
dictionaries. -/
def tasksOfJson : JVal → Option (List TaskRec)
  | JVal.jarr vs => vs.mapM taskOfJson
  | _ => none

/-- Method `Task.load_from_json` (lines 17-22): a missing file
(`FileNotFoundError`) yields the empty collection; otherwise the file is
parsed by `json.load`.  `none` models an uncaught exception on content
outside the typed fragment (the spec flags that case as unhandled). -/
def load_from_json (contents : Option String) : Option (List TaskRec) :=
  match contents with
  | none => some []
  | some s => (json_loads s).bind tasksOfJson

/-- Constructor `Task.__init__` (lines 12-14): load the collection from the
file; the file itself is not written during initialization. -/
def initStore (contents : Option String) : Option Store :=
  (load_from_json contents).map (fun ts => { task_list := ts, file := contents })

/-- Method `Task.add_task` (lines 30-62).  The three validations run in
source order before any mutation, each raising `ValueError` with its own
message; on success the new dictionary is appended and the whole collection
is rewritten to the file.  The Python function is annotated `-> None` and
has no `return` statement, so its value is `None`: the second component of
the success result is that returned value, always `none`. -/
def add_task (st : Store) (title description due_date priority : String) :
    Except (String × Store) (Store × Option TaskRec) :=
  if title = "" then Except.error (title_msg, st)
  else if priority ∉ priorities then Except.error (priority_msg, st)
  else if valid_Ymd due_date = false then Except.error (due_date_msg, st)
  else
    let t : TaskRec :=
      { id := next_id st.task_list, title := title, description := description,
        due_date := due_date, priority := priority }
    let new := st.task_list ++ [t]
    Except.ok ({ task_list := new, file := some (save_to_json new) }, none)

/-- Output of the `view` command (lines 104-123): the "No current tasks."
notice on an empty collection, otherwise one row per record with the
columns ID, Title, Description, Priority, Due Date in that order. -/
inductive ViewOut where
  | noTasks
  | table (rows : List (List String))
deriving Repr, DecidableEq

/-- Rows of the `view` table, one per record in collection order
(line 119-120). -/
def viewRows (tasks : List TaskRec) : List (List String) :=
  tasks.map (fun t => [toString t.id, t.title, t.description, t.priority, t.due_date])

/-- The `view` command on the current collection. -/
def view (tasks : List TaskRec) : ViewOut :=
  if tasks = [] then ViewOut.noTasks else ViewOut.table (viewRows tasks)

/-- A store freshly initialized against an absent file, as `Task("tasks.json")`
does on first run. -/
def emptyStore : Store := { task_list := [], file := none }

/-- The four user-supplied fields of one `add` call. -/
structure AddInput where
  title : String
  description : String
  due_date : String
  priority : String
deriving Repr, DecidableEq

/-- Iteration of successful `add_task` calls; `none` as soon as one call
raises. -/
def addsFrom (st : Store) : List AddInput → Option Store
  | [] => some st
  | i :: is =>
    match add_task st i.title i.description i.due_date i.priority with
    | Except.error _ => none
    | Except.ok (st2, _) => addsFrom st2 is

/-- The record built in a successful `add_task` call on collection `tasks`. -/
def newTask (tasks : List TaskRec) (title description due_date priority : String) : TaskRec :=
  { id := next_id tasks, title := title, description := description,
    due_date := due_date, priority := priority }

/-- The store after a successful `add_task` call: the record appended to the
collection and the whole new collection rewritten to the file. -/
def afterAdd (st : Store) (title description due_date priority : String) : Store :=
  { task_list := st.task_list ++ [newTask st.task_list title description due_date priority],
    file := some (save_to_json
      (st.task_list ++ [newTask st.task_list title description due_date priority])) }

/-- The id sequence `1, 2, ..., n`. -/
def seqIds : Nat → List Int
  | 0 => []
  | n + 1 => seqIds n ++ [(n : Int) + 1]

/-- The JSON value the encoder produces for one task record. -/
def taskJVal (t : TaskRec) : JVal :=
  JVal.jobj [("id", JVal.jnum t.id), ("title", JVal.jstr t.title),
    ("description", JVal.jstr t.description), ("due_date", JVal.jstr t.due_date),
    ("priority", JVal.jstr t.priority)]

/-- Truth of a position not continuing a number: end of input, or a head
character that is neither a digit nor a fraction or exponent introducer. -/
def fracBoundary : List Char → Prop
  | [] => True
  | c :: _ => ¬isDig c ∧ ¬c = '.' ∧ ¬c = 'e' ∧ ¬c = 'E'

theorem add_task_ok (st : Store) (t d dd p : String)
    (ht : ¬t = "") (hp : p ∈ priorities) (hd : valid_Ymd dd = true) :
    add_task st t d dd p = Except.ok (afterAdd st t d dd p, none) := by
  simp [add_task, ht, hp, hd, afterAdd, newTask]

theorem add_task_ok_inv (st : Store) (t d dd p : String) (st2 : Store) (r : Option TaskRec)
    (h : add_task st t d dd p = Except.ok (st2, r)) :
    ¬t = "" ∧ p ∈ priorities ∧ valid_Ymd dd = true ∧
      st2 = afterAdd st t d dd p ∧ r = none := by
  by_cases ht : t = "" <;> by_cases hp : p ∈ priorities <;>
    by_cases hd : valid_Ymd dd = true <;>
    simp_all [add_task, afterAdd, newTask]

theorem add_task_error_inv (st : Store) (t d dd p : String) (e : String) (st2 : Store)
    (h : add_task st t d dd p = Except.error (e, st2)) :
    st2 = st ∧ (e = title_msg ∨ e = priority_msg ∨ e = due_date_msg) := by
  by_cases ht : t = "" <;> by_cases hp : p ∈ priorities <;>
    by_cases hd : valid_Ymd dd = true <;>
    simp_all [add_task]

/-- C2: on every input failing validation (empty title, invalid priority, or
malformed due date), `add_task` raises a validation error and both the
in-memory collection and the persisted file are exactly as before the call:
every raise happens before any mutation or write. -/
theorem add_task_invalid_leaves_state (st : Store) (t d dd p : String)
    (h : t = "" ∨ p ∉ priorities ∨ valid_Ymd dd = false) :
    ∃ e, (e = title_msg ∨ e = priority_msg ∨ e = due_date_msg) ∧
      add_task st t d dd p = Except.error (e, st) := by
  by_cases ht : t = ""
  · exact ⟨title_msg, Or.inl rfl, by simp [add_task, ht]⟩
  · by_cases hp : p ∈ priorities
    · have hd : valid_Ymd dd = false := by
        rcases h with h | h | h
        · exact absurd h ht
        · exact absurd hp h
        · exact h
      exact ⟨due_date_msg, Or.inr (Or.inr rfl), by simp [add_task, ht, hp, hd]⟩
    · exact ⟨priority_msg, Or.inr (Or.inl rfl), by simp [add_task, ht, hp]⟩

/-- C2 witness: the store stays untouched on a concrete empty-title call. -/
theorem add_task_invalid_leaves_state_witness :
    ∃ e, (e = title_msg ∨ e = priority_msg ∨ e = due_date_msg) ∧
      add_task emptyStore "" "x" "2024-07-15" "Low" = Except.error (e, emptyStore) :=
  add_task_invalid_leaves_state emptyStore "" "x" "2024-07-15" "Low" (Or.inl rfl)

theorem add_task_error_cases (st : Store) (t d dd p : String) :
    (add_task st t d dd p = Except.error (title_msg, st) ↔ t = "") ∧
    (add_task st t d dd p = Except.error (priority_msg, st) ↔ ¬t = "" ∧ p ∉ priorities) ∧
    (add_task st t d dd p = Except.error (due_date_msg, st) ↔
      ¬t = "" ∧ p ∈ priorities ∧ valid_Ymd dd = false) := by
  have h12 : ¬(title_msg = priority_msg) := by decide
  have h13 : ¬(title_msg = due_date_msg) := by decide
  have h23 : ¬(priority_msg = due_date_msg) := by decide
  have h21 : ¬(priority_msg = title_msg) := fun h => h12 h.symm
  have h31 : ¬(due_date_msg = title_msg) := fun h => h13 h.symm
  have h32 : ¬(due_date_msg = priority_msg) := fun h => h23 h.symm
  by_cases ht : t = "" <;> by_cases hp : p ∈ priorities <;>
    by_cases hd : valid_Ymd dd = true <;>
    simp [add_task, ht, hp, hd, h12, h13, h23, h21, h31, h32]

/-- C5: the three validations run in the fixed order title, priority, due
date, each with its own distinct message: the title message is reported
exactly on an empty title; the priority message exactly on a non-empty title
and a priority outside the fixed set; the due-date message exactly when both
earlier checks pass and the date parse fails.  With several invalid fields
the first failing check in this order is the one reported. -/
theorem add_task_validation_order (st : Store) (t d dd p : String) :
    (add_task st t d dd p = Except.error (title_msg, st) ↔ t = "") ∧
    (add_task st t d dd p = Except.error (priority_msg, st) ↔ ¬t = "" ∧ p ∉ priorities) ∧
    (add_task st t d dd p = Except.error (due_date_msg, st) ↔
      ¬t = "" ∧ p ∈ priorities ∧ valid_Ymd dd = false) :=
  add_task_error_cases st t d dd p

/-- C6: with the title check passed, the priority check is character-for-
character: `add_task` fails with the priority error exactly when the string
is not one of `"Low"`, `"Medium"`, `"High"`; membership in `priorities` is
exactly equality with one of those three strings, and the lowercase
`"low"` in particular is not a member. -/
theorem add_task_priority_case_sensitive (st : Store) (t d dd p : String) (ht : ¬t = "") :
    (add_task st t d dd p = Except.error (priority_msg, st) ↔ p ∉ priorities) ∧
    (p ∈ priorities ↔ p = "Low" ∨ p = "Medium" ∨ p = "High") ∧
    "low" ∉ priorities := by
  refine ⟨?_, by simp [priorities], by decide⟩
  have h := (add_task_error_cases st t d dd p).2.1
  rw [h]
  simp [ht]

/-- C6 witness: a concrete call with the lowercase priority `"low"` fails
with the priority error. -/
theorem add_task_priority_case_sensitive_witness :
    (add_task emptyStore "x" "" "2024-07-15" "low" = Except.error (priority_msg, emptyStore) ↔
      "low" ∉ priorities) ∧
    ("low" ∈ priorities ↔ "low" = "Low" ∨ "low" = "Medium" ∨ "low" = "High") ∧
    "low" ∉ priorities :=
  add_task_priority_case_sensitive emptyStore "x" "" "2024-07-15" "low" (by decide)

/-- C7: the title check rejects exactly the empty string, with no trimming:
an empty title fails with the title error whatever the other fields are,
while the whitespace-only title `" "` never produces the title error and,
with the other fields valid, is accepted. -/
theorem add_task_title_empty_only (st : Store) (d dd p : String) :
    add_task st "" d dd p = Except.error (title_msg, st) ∧
    (∀ (e : String) (st2 : Store),
      add_task st " " d dd p = Except.error (e, st2) → ¬e = title_msg) ∧
    (p ∈ priorities → valid_Ymd dd = true →
      add_task st " " d dd p = Except.ok (afterAdd st " " d dd p, none)) := by
  refine ⟨by simp [add_task], ?_, ?_⟩
  · intro e st2 he he2
    subst he2
    obtain ⟨hst, -⟩ := add_task_error_inv st " " d dd p title_msg st2 he
    rw [hst] at he
    have : (" " : String) = "" := (add_task_error_cases st " " d dd p).1.mp he
    exact absurd this (by decide)
  · intro hp hd
    exact add_task_ok st " " d dd p (by decide) hp hd

/-- C7 witness: concrete calls showing both halves of the title check. -/
theorem add_task_title_empty_only_witness :
    add_task emptyStore "" "d" "2024-07-15" "Low" = Except.error (title_msg, emptyStore) ∧
    (∀ (e : String) (st2 : Store),
      add_task emptyStore " " "d" "2024-07-15" "Low" = Except.error (e, st2) → ¬e = title_msg) ∧
    ("Low" ∈ priorities → valid_Ymd "2024-07-15" = true →
      add_task emptyStore " " "d" "2024-07-15" "Low"
        = Except.ok (afterAdd emptyStore " " "d" "2024-07-15" "Low", none)) :=
  add_task_title_empty_only emptyStore "d" "2024-07-15" "Low"

/-- C9: a missing persisted file is not an error: initialization yields the
empty collection, and the `view` command on that collection reports the
"no tasks" notice rather than a table or a failure. -/
theorem empty_store_view_no_tasks :
    load_from_json none = some [] ∧
    initStore none = some emptyStore ∧
    emptyStore.task_list = [] ∧
    view emptyStore.task_list = ViewOut.noTasks := by
  refine ⟨rfl, rfl, rfl, rfl⟩

/-- C10: a successful `add_task` appends the new record at the end, increases
the length by exactly one, and leaves every pre-existing record unchanged at
its original position. -/
theorem add_task_frame (st : Store) (t d dd p : String) (st2 : Store) (r : Option TaskRec)
    (h : add_task st t d dd p = Except.ok (st2, r)) :
    st2.task_list = st.task_list ++ [newTask st.task_list t d dd p] ∧
    st2.task_list.length = st.task_list.length + 1 ∧
    ∀ i : Nat, i < st.task_list.length → st2.task_list[i]? = st.task_list[i]? := by
  obtain ⟨-, -, -, hst, -⟩ := add_task_ok_inv st t d dd p st2 r h
  subst hst
  refine ⟨rfl, by simp [afterAdd], ?_⟩
  intro i hi
  simp [afterAdd, List.getElem?_append_left hi]


theorem udigitVal_le9 (c : Char) (d : Nat) (h : udigitVal c = some d) : d ≤ 9 := by
  simp only [udigitVal, Option.map_eq_some'] at h
  obtain ⟨r, hr, hd⟩ := h
  have hp := List.find?_some hr
  simp only [Bool.and_eq_true, decide_eq_true_eq] at hp
  omega

theorem udigitVal_ascii (c : Char) (h1 : 48 ≤ c.toNat) (h2 : c.toNat ≤ 57) :
    udigitVal c = some (c.toNat - 48) := by
  have key : ∀ n : Nat, 48 ≤ n → n ≤ 57 →
      (ndRangeStarts.find? (fun r => decide (r ≤ n) && decide (n ≤ r + 9))).map
        (fun r => n - r) = some (n - 48) := by
    intro n hn1 hn2
    interval_cases n <;> decide
  simp only [udigitVal]
  exact key c.toNat h1 h2

theorem parseYear_bounds (cs : List Char) (y : Nat) (r : List Char)
    (h : parseYear cs = some (y, r)) : y ≤ 9999 := by
  match cs with
  | c1 :: c2 :: c3 :: c4 :: rest =>
    simp only [parseYear] at h
    split at h
    next d1 d2 d3 d4 h1 h2 h3 h4 =>
      simp only [Option.some.injEq, Prod.mk.injEq] at h
      obtain ⟨hy, hr⟩ := h
      subst hy
      have b1 := udigitVal_le9 c1 d1 h1
      have b2 := udigitVal_le9 c2 d2 h2
      have b3 := udigitVal_le9 c3 d3 h3
      have b4 := udigitVal_le9 c4 d4 h4
      omega
    next => exact absurd h (by simp)
  | [] => exact absurd h (by simp [parseYear])
  | [c1] => exact absurd h (by simp [parseYear])
  | [c1, c2] => exact absurd h (by simp [parseYear])
  | [c1, c2, c3] => exact absurd h (by simp [parseYear])

theorem parseMonth_bounds (cs : List Char) (m : Nat) (r : List Char)
    (h : parseMonth cs = some (m, r)) : 1 ≤ m ∧ m ≤ 12 := by
  match cs with
  | c1 :: c2 :: rest =>
    simp only [parseMonth] at h
    split_ifs at h with hg1 hg2 hg3 <;>
      simp only [Option.some.injEq, Prod.mk.injEq, reduceCtorEq] at h <;>
      (obtain ⟨hm, hr⟩ := h; subst hm; simp only [digitVal, isDig] at *; omega)
  | [c1] =>
    simp only [parseMonth] at h
    split_ifs at h with hg
    simp only [Option.some.injEq, Prod.mk.injEq] at h
    obtain ⟨hm, hr⟩ := h
    subst hm
    simp only [digitVal] at *
    omega
  | [] => exact absurd h (by simp [parseMonth])

theorem parseDay_bounds (cs : List Char) (d : Nat) (r : List Char)
    (h : parseDay cs = some (d, r)) : 1 ≤ d ∧ d ≤ 31 := by
  match cs with
  | c1 :: c2 :: rest =>
    simp only [parseDay] at h
    split_ifs at h with hg1 hg2 hg3 hg4
    · simp only [Option.some.injEq, Prod.mk.injEq] at h
      obtain ⟨hd, hr⟩ := h
      subst hd
      simp only [digitVal] at *
      omega
    · simp only [Option.some.injEq, Prod.mk.injEq] at h
      obtain ⟨hd, hr⟩ := h
      subst hd
      obtain ⟨hg2a, hg2b⟩ := hg2
      obtain ⟨d2, hd2⟩ := Option.isSome_iff_exists.mp hg2b
      have hb := udigitVal_le9 c2 d2 hd2
      rw [hd2]
      simp only [Option.getD_some, digitVal]
      omega
    · simp only [Option.some.injEq, Prod.mk.injEq] at h
      obtain ⟨hd, hr⟩ := h
      subst hd
      simp only [digitVal] at *
      omega
    · simp only [Option.some.injEq, Prod.mk.injEq] at h
      obtain ⟨hd, hr⟩ := h
      subst hd
      simp only [digitVal] at *
      omega
  | [c1] =>
    simp only [parseDay] at h
    split_ifs at h with hg
    simp only [Option.some.injEq, Prod.mk.injEq] at h
    obtain ⟨hd, hr⟩ := h
    subst hd
    simp only [digitVal] at *
    omega
  | [] => exact absurd h (by simp [parseDay])

theorem strptimeYmd_bounds (s : String) (y m d : Nat)
    (h : strptimeYmd s = some (y, m, d)) :
    y ≤ 9999 ∧ 1 ≤ m ∧ m ≤ 12 ∧ 1 ≤ d ∧ d ≤ 31 := by
  simp only [strptimeYmd] at h
  split at h
  · exact absurd h (by simp)
  next y1 r1 heqY =>
    split at h
    next c1 r2 =>
      rcases hc1 : decide (c1 = '-') with - | -
      · rw [if_neg (of_decide_eq_false hc1)] at h
        exact absurd h (by simp)
      · rw [if_pos (of_decide_eq_true hc1)] at h
        split at h
        · exact absurd h (by simp)
        next m1 r3 heqM =>
          split at h
          next c2 r4 =>
            rcases hc2 : decide (c2 = '-') with - | -
            · rw [if_neg (of_decide_eq_false hc2)] at h
              exact absurd h (by simp)
            · rw [if_pos (of_decide_eq_true hc2)] at h
              split at h
              · exact absurd h (by simp)
              next d1 r5 heqD =>
                split_ifs at h
                simp only [Option.some.injEq, Prod.mk.injEq] at h
                obtain ⟨hy, hm, hd⟩ := h
                subst hy hm hd
                exact ⟨parseYear_bounds _ _ _ heqY,
                  (parseMonth_bounds _ _ _ heqM).1, (parseMonth_bounds _ _ _ heqM).2,
                  (parseDay_bounds _ _ _ heqD).1, (parseDay_bounds _ _ _ heqD).2⟩
          next => exact absurd h (by simp)
    next => exact absurd h (by simp)

theorem valid_Ymd_iff (s : String) :
    valid_Ymd s = true ↔ ∃ y m d, strptimeYmd s = some (y, m, d) ∧
      1 ≤ y ∧ y ≤ 9999 ∧ 1 ≤ m ∧ m ≤ 12 ∧ 1 ≤ d ∧ d ≤ daysInMonth y m := by
  constructor
  · intro h
    simp only [valid_Ymd] at h
    split at h
    · exact absurd h (by simp)
    next y m d heq =>
      have hb := strptimeYmd_bounds s y m d heq
      simp only [Bool.and_eq_true, decide_eq_true_eq] at h
      exact ⟨y, m, d, heq, h.1, hb.1, hb.2.1, hb.2.2.1, hb.2.2.2.1, h.2⟩
  · rintro ⟨y, m, d, heq, h1, _, _, _, _, h6⟩
    simp [valid_Ymd, heq, h1, h6]

theorem daysInMonth_le31 (y m : Nat) : daysInMonth y m ≤ 31 := by
  rw [daysInMonth]
  split_ifs <;> omega

theorem char_eq_of_toNat_eq (a b : Char) (h : a.toNat = b.toNat) : a = b := by
  rw [← Char.ofNat_toNat a, h, Char.ofNat_toNat]

theorem spec_Ymd_subset (s : String) (h : spec_Ymd_format s = true) :
    valid_Ymd s = true := by
  rw [spec_Ymd_format] at h
  split at h
  next y1 y2 y3 y4 hc1 m1 m2 hc2 d1 d2 heq =>
    simp only [isDigB, Bool.and_eq_true, decide_eq_true_eq, and_assoc] at h
    obtain ⟨hy1l, hy1r, hy2l, hy2r, hy3l, hy3r, hy4l, hy4r, hh1, hh2,
      hm1l, hm1r, hm2l, hm2r, hd1l, hd1r, hd2l, hd2r, hY1, hM1, hM2, hD1, hD2⟩ := h
    subst hh1 hh2
    have hpy : parseYear (y1 :: y2 :: y3 :: y4 :: '-' :: m1 :: m2 :: '-' :: d1 :: d2 :: []) =
        some (((digitVal y1 * 10 + digitVal y2) * 10 + digitVal y3) * 10 + digitVal y4,
          '-' :: m1 :: m2 :: '-' :: d1 :: d2 :: []) := by
      simp only [parseYear]
      rw [udigitVal_ascii y1 hy1l hy1r, udigitVal_ascii y2 hy2l hy2r,
        udigitVal_ascii y3 hy3l hy3r, udigitVal_ascii y4 hy4l hy4r]
      simp only [digitVal]
    have hm1v : m1.toNat = 48 ∨ m1.toNat = 49 := by
      simp only [digitVal] at hM2
      omega
    have hpm : parseMonth (m1 :: m2 :: '-' :: d1 :: d2 :: []) =
        some (digitVal m1 * 10 + digitVal m2, '-' :: d1 :: d2 :: []) := by
      rcases hm1v with hm0 | hm1
      · have he0 : m1 = '0' := char_eq_of_toNat_eq m1 '0' (by rw [hm0]; decide)
        subst he0
        have h48 : ('0' : Char).toNat = 48 := by decide
        simp only [digitVal] at hM1
        simp only [parseMonth]
        rw [if_neg (fun hcon => absurd hcon.1 (by decide)), if_pos ⟨trivial, by omega, hm2r⟩]
        simp only [Option.some.injEq, Prod.mk.injEq]
        refine ⟨?_, trivial⟩
        have hdv : digitVal ('0' : Char) = 0 := by decide
        omega
      · have he1 : m1 = '1' := char_eq_of_toNat_eq m1 '1' (by rw [hm1]; decide)
        subst he1
        have h49 : ('1' : Char).toNat = 49 := by decide
        simp only [digitVal] at hM2
        simp only [parseMonth]
        rw [if_pos ⟨trivial, by omega, by omega⟩]
        simp only [Option.some.injEq, Prod.mk.injEq]
        refine ⟨?_, trivial⟩
        have hdv : digitVal ('1' : Char) = 1 := by decide
        omega
    have h31 := daysInMonth_le31
      (((digitVal y1 * 10 + digitVal y2) * 10 + digitVal y3) * 10 + digitVal y4)
      (digitVal m1 * 10 + digitVal m2)
    have hd1v : d1.toNat = 48 ∨ d1.toNat = 49 ∨ d1.toNat = 50 ∨ d1.toNat = 51 := by
      simp only [digitVal] at hD2 h31
      omega
    have hpd : parseDay (d1 :: d2 :: []) =
        some (digitVal d1 * 10 + digitVal d2, []) := by
      rcases hd1v with hd0 | hd12 | hd12 | hd3
      · have he0 : d1 = '0' := char_eq_of_toNat_eq d1 '0' (by rw [hd0]; decide)
        subst he0
        have h48 : ('0' : Char).toNat = 48 := by decide
        simp only [digitVal] at hD1
        simp only [parseDay]
        rw [if_neg (fun hcon => absurd hcon.1 (by decide)),
          if_neg (fun hcon => by have := hcon.1.1; omega),
          if_pos ⟨trivial, by omega, hd2r⟩]
        simp only [Option.some.injEq, Prod.mk.injEq]
        refine ⟨?_, trivial⟩
        have hdv : digitVal ('0' : Char) = 0 := by decide
        omega
      · simp only [parseDay]
        rw [if_neg (fun hcon => by rw [hcon.1] at hd12; exact absurd hd12 (by decide)),
          if_pos ⟨⟨by omega, by omega⟩, by rw [udigitVal_ascii d2 hd2l hd2r]; rfl⟩,
          udigitVal_ascii d2 hd2l hd2r]
        rfl
      · simp only [parseDay]
        rw [if_neg (fun hcon => by rw [hcon.1] at hd12; exact absurd hd12 (by decide)),
          if_pos ⟨⟨by omega, by omega⟩, by rw [udigitVal_ascii d2 hd2l hd2r]; rfl⟩,
          udigitVal_ascii d2 hd2l hd2r]
        rfl
      · have he3 : d1 = '3' := char_eq_of_toNat_eq d1 '3' (by rw [hd3]; decide)
        subst he3
        have h51 : ('3' : Char).toNat = 51 := by decide
        simp only [digitVal] at hD2 h31
        simp only [parseDay]
        rw [if_pos ⟨trivial, by omega, by omega⟩]
        simp only [Option.some.injEq, Prod.mk.injEq]
        refine ⟨?_, trivial⟩
        have hdv : digitVal ('3' : Char) = 3 := by decide
        omega
    have hs : strptimeYmd s =
        some (((digitVal y1 * 10 + digitVal y2) * 10 + digitVal y3) * 10 + digitVal y4,
          digitVal m1 * 10 + digitVal m2, digitVal d1 * 10 + digitVal d2) := by
      rw [strptimeYmd, heq, hpy]
      dsimp only
      rw [if_pos rfl, hpm]
      dsimp only
      rw [if_pos rfl, hpd]
      dsimp only
      rw [if_pos rfl]
    rw [valid_Ymd, hs]
    simp only [Bool.and_eq_true, decide_eq_true_eq]
    exact ⟨hY1, hD2⟩
  next =>
    exact absurd h (by simp)

set_option maxRecDepth 100000 in
/-- C8 counterexample: the due-date check is strictly wider than "a real
calendar date in YYYY-MM-DD format".  CPython compiles the `%Y-%m-%d`
pattern without `re.ASCII`, so its `\d` matches any Unicode decimal digit
and `int()` converts it: the string `"2024-01-1٤"` (last character the
Arabic-Indic digit four, U+0664) is not in YYYY-MM-DD format — the reading
of the spec, `spec_Ymd_format`, rejects it — and yet `strptime` matches it
as 2024-01-14 and `add_task` accepts it. -/
theorem add_task_unicode_due_date_counterexample :
    spec_Ymd_format "2024-01-1٤" = false ∧
    valid_Ymd "2024-01-1٤" = true ∧
    add_task emptyStore "x" "" "2024-01-1٤" "Low"
      = Except.ok (afterAdd emptyStore "x" "" "2024-01-1٤" "Low", none) :=
  ⟨by rfl, by rfl, by rfl⟩

/-- C8 (amended): with the two earlier checks passed, `add_task` accepts the
due date exactly when `strptime("%Y-%m-%d")` accepts it and fails with the
due-date error otherwise; `strptime` acceptance means the pattern matches
the whole string and the fields denote a real calendar date (year at least
1, month 1 to 12, day within the month's length), where the `\d` positions
of the pattern — the four year digits and the second day digit of the
`[12]\d` alternative — admit any Unicode decimal digit, not only ASCII.
Hence every real calendar date written as ASCII YYYY-MM-DD is accepted
(`spec_Ymd_format` implies `valid_Ymd`), but the acceptance set is strictly
larger: `"2024-01-1٤"` is also accepted.  The spec's examples behave
as stated: `"2024-13-01"` and `"2024/01/01"` are rejected, `"2024-07-15"`
is accepted. -/
theorem add_task_due_date_check (st : Store) (t d dd p : String)
    (ht : ¬t = "") (hp : p ∈ priorities) :
    (add_task st t d dd p = Except.error (due_date_msg, st) ↔ valid_Ymd dd = false) ∧
    (add_task st t d dd p = Except.ok (afterAdd st t d dd p, none) ↔ valid_Ymd dd = true) ∧
    (valid_Ymd dd = true ↔ ∃ y m dy, strptimeYmd dd = some (y, m, dy) ∧
      1 ≤ y ∧ y ≤ 9999 ∧ 1 ≤ m ∧ m ≤ 12 ∧ 1 ≤ dy ∧ dy ≤ daysInMonth y m) ∧
    (∀ s : String, spec_Ymd_format s = true → valid_Ymd s = true) ∧
    valid_Ymd "2024-01-1٤" = true ∧
    spec_Ymd_format "2024-01-1٤" = false ∧
    valid_Ymd "2024-13-01" = false ∧
    valid_Ymd "2024/01/01" = false ∧
    valid_Ymd "2024-07-15" = true := by
  refine ⟨?_, ?_, valid_Ymd_iff dd, spec_Ymd_subset, by rfl, by rfl,
    by decide, by decide, by decide⟩
  · rw [(add_task_error_cases st t d dd p).2.2]
    simp [ht, hp]
  · constructor
    · intro h
      exact (add_task_ok_inv st t d dd p (afterAdd st t d dd p) none h).2.2.1
    · intro h
      exact add_task_ok st t d dd p ht hp h

/-- C8 witness: the amended due-date characterization at concrete inputs,
including the example strings. -/
theorem add_task_due_date_check_witness :
    (add_task emptyStore "x" "" "2024-13-01" "Low"
        = Except.error (due_date_msg, emptyStore) ↔ valid_Ymd "2024-13-01" = false) ∧
    (add_task emptyStore "x" "" "2024-13-01" "Low"
        = Except.ok (afterAdd emptyStore "x" "" "2024-13-01" "Low", none) ↔
      valid_Ymd "2024-13-01" = true) ∧
    (valid_Ymd "2024-13-01" = true ↔ ∃ y m dy, strptimeYmd "2024-13-01" = some (y, m, dy) ∧
      1 ≤ y ∧ y ≤ 9999 ∧ 1 ≤ m ∧ m ≤ 12 ∧ 1 ≤ dy ∧ dy ≤ daysInMonth y m) ∧
    (∀ s : String, spec_Ymd_format s = true → valid_Ymd s = true) ∧
    valid_Ymd "2024-01-1٤" = true ∧
    spec_Ymd_format "2024-01-1٤" = false ∧
    valid_Ymd "2024-13-01" = false ∧
    valid_Ymd "2024/01/01" = false ∧
    valid_Ymd "2024-07-15" = true :=
  add_task_due_date_check emptyStore "x" "" "2024-13-01" "Low" (by decide) (by decide)

set_option maxRecDepth 40000 in
/-- C4 counterexample: on a concrete valid input the Python `add_task`
returns `None` (the method is annotated `-> None` and has no `return`
statement), not the newly created record, refuting "returns the newly
created task record". -/
theorem add_task_returns_none_counterexample :
    add_task emptyStore "Write report" "Q3 summary" "2024-07-15" "High"
      = Except.ok ({ task_list := [⟨1, "Write report", "Q3 summary", "2024-07-15", "High"⟩],
                     file := some (save_to_json
                       [⟨1, "Write report", "Q3 summary", "2024-07-15", "High"⟩]) },
          none) ∧
    (none : Option TaskRec) ≠ some ⟨1, "Write report", "Q3 summary", "2024-07-15", "High"⟩ :=
  ⟨by rfl, by simp⟩

/-- C4 amended: on every valid input `add_task` returns `None`; its only
observable effects are appending the record with the computed id and the
given field values to the collection and persisting the whole collection to
the file. -/
theorem add_task_success_effects (st : Store) (t d dd p : String)
    (ht : ¬t = "") (hp : p ∈ priorities) (hd : valid_Ymd dd = true) :
    add_task st t d dd p = Except.ok (afterAdd st t d dd p, none) ∧
    (afterAdd st t d dd p).task_list
      = st.task_list ++ [newTask st.task_list t d dd p] ∧
    newTask st.task_list t d dd p
      = { id := next_id st.task_list, title := t, description := d,
          due_date := dd, priority := p } ∧
    (afterAdd st t d dd p).file
      = some (save_to_json (st.task_list ++ [newTask st.task_list t d dd p])) :=
  ⟨add_task_ok st t d dd p ht hp hd, rfl, rfl, rfl⟩

/-- C4 amended witness: the effects at a concrete valid input. -/
theorem add_task_success_effects_witness :
    add_task emptyStore "Write report" "Q3 summary" "2024-07-15" "High"
      = Except.ok (afterAdd emptyStore "Write report" "Q3 summary" "2024-07-15" "High", none) ∧
    (afterAdd emptyStore "Write report" "Q3 summary" "2024-07-15" "High").task_list
      = emptyStore.task_list
          ++ [newTask emptyStore.task_list "Write report" "Q3 summary" "2024-07-15" "High"] ∧
    newTask emptyStore.task_list "Write report" "Q3 summary" "2024-07-15" "High"
      = { id := next_id emptyStore.task_list, title := "Write report",
          description := "Q3 summary", due_date := "2024-07-15", priority := "High" } ∧
    (afterAdd emptyStore "Write report" "Q3 summary" "2024-07-15" "High").file
      = some (save_to_json (emptyStore.task_list
          ++ [newTask emptyStore.task_list "Write report" "Q3 summary" "2024-07-15" "High"])) :=
  add_task_success_effects emptyStore "Write report" "Q3 summary" "2024-07-15" "High"
    (by decide) (by decide) (by decide)

set_option maxRecDepth 40000 in
/-- C10 witness: the frame condition at a concrete successful call. -/
theorem add_task_frame_witness :
    (afterAdd emptyStore "a" "b" "2024-07-15" "Low").task_list
      = emptyStore.task_list ++ [newTask emptyStore.task_list "a" "b" "2024-07-15" "Low"] ∧
    (afterAdd emptyStore "a" "b" "2024-07-15" "Low").task_list.length
      = emptyStore.task_list.length + 1 ∧
    (∀ i : Nat, i < emptyStore.task_list.length →
      (afterAdd emptyStore "a" "b" "2024-07-15" "Low").task_list[i]?
        = emptyStore.task_list[i]?) :=
  add_task_frame emptyStore "a" "b" "2024-07-15" "Low"
    (afterAdd emptyStore "a" "b" "2024-07-15" "Low") none (by rfl)


theorem foldl_max_mem (xs : List Int) : ∀ x : Int, xs.foldl max x ∈ x :: xs := by
  induction xs with
  | nil => intro x; simp
  | cons y ys ih =>
    intro x
    have h := ih (max x y)
    simp only [List.foldl_cons]
    rcases List.mem_cons.mp h with h | h
    · rcases max_choice x y with hm | hm
      · rw [h, hm]; exact List.mem_cons_self _ _
      · rw [h, hm]; simp
    · simp [h]

theorem le_foldl_max (xs : List Int) : ∀ x : Int, ∀ y ∈ x :: xs, y ≤ xs.foldl max x := by
  induction xs with
  | nil => intro x y hy; simp at hy; simp [hy]
  | cons z zs ih =>
    intro x y hy
    simp only [List.foldl_cons]
    rcases List.mem_cons.mp hy with h | h
    · subst h
      exact le_trans (le_max_left y z) (ih (max y z) _ (List.mem_cons_self _ _))
    · rcases List.mem_cons.mp h with h | h
      · subst h
        exact le_trans (le_max_right x y) (ih (max x y) _ (List.mem_cons_self _ _))
      · exact ih (max x z) y (List.mem_cons.mpr (Or.inr h))

theorem max_default0_eq (l : List Int) (n : Int) (hmem : n ∈ l) (hub : ∀ x ∈ l, x ≤ n) :
    max_default0 l = n := by
  match l with
  | [] => exact absurd hmem (by simp)
  | x :: xs =>
    simp only [max_default0]
    have h1 : xs.foldl max x ∈ x :: xs := foldl_max_mem xs x
    have h2 : n ≤ xs.foldl max x := le_foldl_max xs x n hmem
    exact le_antisymm (hub _ h1) h2

theorem mem_seqIds (x : Int) (n : Nat) : x ∈ seqIds n ↔ 1 ≤ x ∧ x ≤ (n : Int) := by
  induction n with
  | zero => simp [seqIds]; omega
  | succ m ih =>
    simp only [seqIds, List.mem_append, List.mem_singleton, ih]
    omega

theorem seqIds_nodup (n : Nat) : (seqIds n).Nodup := by
  induction n with
  | zero => simp [seqIds]
  | succ m ih =>
    simp only [seqIds, List.nodup_append, List.nodup_singleton, true_and, List.disjoint_singleton]
    refine ⟨ih, ?_⟩
    rw [mem_seqIds]
    omega

theorem next_id_seqIds (tasks : List TaskRec) (n : Nat)
    (h : tasks.map TaskRec.id = seqIds n) : next_id tasks = (n : Int) + 1 := by
  match n with
  | 0 =>
    have : tasks = [] := by
      cases tasks with
      | nil => rfl
      | cons t ts => simp [seqIds] at h
    subst this
    rfl
  | m + 1 =>
    have hmem : ((m : Int) + 1) ∈ tasks.map TaskRec.id := by
      rw [h, mem_seqIds]
      omega
    have hub : ∀ x ∈ tasks.map TaskRec.id, x ≤ (m : Int) + 1 := by
      intro x hx
      rw [h, mem_seqIds] at hx
      omega
    have hmax := max_default0_eq (tasks.map TaskRec.id) ((m : Int) + 1) hmem hub
    simp only [next_id, hmax]
    push_cast
    ring

theorem addsFrom_ids (is : List AddInput) : ∀ (st st' : Store) (k : Nat),
    st.task_list.map TaskRec.id = seqIds k → addsFrom st is = some st' →
    st'.task_list.map TaskRec.id = seqIds (k + is.length) := by
  induction is with
  | nil =>
    intro st st' k hids h
    simp only [addsFrom] at h
    injection h with h
    subst h
    simpa using hids
  | cons i is ih =>
    intro st st' k hids h
    simp only [addsFrom] at h
    split at h
    · exact absurd h (by simp)
    next st2 r heq =>
      obtain ⟨-, -, -, hst2, -⟩ :=
        add_task_ok_inv st i.title i.description i.due_date i.priority st2 r heq
      subst hst2
      have hids2 : (afterAdd st i.title i.description i.due_date i.priority).task_list.map
          TaskRec.id = seqIds (k + 1) := by
        simp only [afterAdd, List.map_append, hids, List.map_cons, List.map_nil, newTask]
        rw [next_id_seqIds st.task_list k hids]
        rfl
      have hfin := ih _ st' (k + 1) hids2 h
      rw [hfin]
      congr 1
      simp only [List.length_cons]
      omega

theorem max_default0_mem (l : List Int) (hne : ¬l = []) : max_default0 l ∈ l := by
  match l with
  | [] => exact absurd rfl hne
  | x :: xs => exact foldl_max_mem xs x

theorem le_max_default0 (l : List Int) : ∀ x ∈ l, x ≤ max_default0 l := by
  match l with
  | [] => intro x hx; exact absurd hx (by simp)
  | y :: ys => exact fun x hx => le_foldl_max ys y x hx

/-- C1 amended: starting from an empty store, a sequence of successful
`add_task` calls yields the ids `1, 2, ..., n` in call order, and those ids
are pairwise distinct.  Every successful add assigns the new record the id
`1 + max existing id` (`1` on an empty collection).  An id is never reused
under out-of-band removal of records added earlier than the most recent one:
as long as the most recently added record (the one holding the maximum id)
is among those kept, the next successful add assigns `n + 1`, an id never
assigned before.  (If the maximum-id record is itself removed, its id can be
reused — see the counterexample.) -/
theorem add_task_ids_monotone (inputs : List AddInput) (st : Store)
    (h : addsFrom emptyStore inputs = some st) :
    st.task_list.map TaskRec.id = seqIds inputs.length ∧
    (st.task_list.map TaskRec.id).Nodup ∧
    (∀ (st0 : Store) (t d dd p : String) (st2 : Store) (r : Option TaskRec),
      add_task st0 t d dd p = Except.ok (st2, r) →
      st2.task_list = st0.task_list ++ [newTask st0.task_list t d dd p] ∧
      (st0.task_list = [] → (newTask st0.task_list t d dd p).id = 1) ∧
      (¬st0.task_list = [] →
        ((newTask st0.task_list t d dd p).id - 1) ∈ st0.task_list.map TaskRec.id ∧
        ∀ x ∈ st0.task_list.map TaskRec.id, x ≤ (newTask st0.task_list t d dd p).id - 1)) ∧
    (∀ (S : List TaskRec) (f : Option String) (lastR : TaskRec) (t d dd p : String)
        (st2 : Store) (r : Option TaskRec),
      List.Sublist S st.task_list → st.task_list.getLast? = some lastR → lastR ∈ S →
      add_task { task_list := S, file := f } t d dd p = Except.ok (st2, r) →
      st2.task_list = S ++ [newTask S t d dd p] ∧
      (newTask S t d dd p).id = (inputs.length : Int) + 1 ∧
      (newTask S t d dd p).id ∉ st.task_list.map TaskRec.id) := by
  have hids : st.task_list.map TaskRec.id = seqIds inputs.length := by
    have := addsFrom_ids inputs emptyStore st 0 (by simp [emptyStore, seqIds]) h
    simpa using this
  refine ⟨hids, by rw [hids]; exact seqIds_nodup _, ?_, ?_⟩
  · intro st0 t d dd p st2 r hadd
    obtain ⟨-, -, -, hst2, -⟩ := add_task_ok_inv st0 t d dd p st2 r hadd
    subst hst2
    refine ⟨rfl, ?_, ?_⟩
    · intro hnil
      simp [newTask, next_id, hnil, max_default0]
    · intro hne
      have hne2 : ¬st0.task_list.map TaskRec.id = [] := by
        simpa using hne
      have hid : (newTask st0.task_list t d dd p).id - 1
          = max_default0 (st0.task_list.map TaskRec.id) := by
        simp [newTask, next_id]
      rw [hid]
      exact ⟨max_default0_mem _ hne2, le_max_default0 _⟩
  · intro S f lastR t d dd p st2 r hsub hlast hmem hadd
    obtain ⟨-, -, -, hst2, -⟩ := add_task_ok_inv _ t d dd p st2 r hadd
    subst hst2
    have hlenpos : ¬inputs.length = 0 := by
      intro h0
      rw [h0] at hids
      have : st.task_list = [] := by
        cases hst : st.task_list with
        | nil => rfl
        | cons a l => rw [hst] at hids; simp [seqIds] at hids
      rw [this] at hlast
      simp at hlast
    obtain ⟨m, hm⟩ : ∃ m, inputs.length = m + 1 :=
      ⟨inputs.length - 1, by omega⟩
    have hlastid : lastR.id = (m : Int) + 1 := by
      have h1 : (st.task_list.map TaskRec.id).getLast? = some lastR.id := by
        rw [List.getLast?_map, hlast]
        rfl
      rw [hids, hm] at h1
      simp only [seqIds, List.getLast?_concat] at h1
      injection h1 with h1
      exact h1.symm
    have hSids : ∀ x ∈ S.map TaskRec.id, x ≤ (m : Int) + 1 := by
      intro x hx
      have : x ∈ st.task_list.map TaskRec.id := (hsub.map TaskRec.id).subset hx
      rw [hids, hm, mem_seqIds] at this
      push_cast at this ⊢
      omega
    have hSmem : ((m : Int) + 1) ∈ S.map TaskRec.id := by
      rw [← hlastid]
      exact List.mem_map_of_mem TaskRec.id hmem
    have hmax : max_default0 (S.map TaskRec.id) = (m : Int) + 1 :=
      max_default0_eq _ _ hSmem hSids
    have hnid : (newTask S t d dd p).id = (inputs.length : Int) + 1 := by
      simp only [newTask, next_id, hmax, hm]
      push_cast
      ring
    refine ⟨rfl, hnid, ?_⟩
    rw [hnid, hids, mem_seqIds]
    omega

set_option maxRecDepth 100000 in
/-- C1 witness: the amended statement at a concrete one-add run. -/
theorem add_task_ids_monotone_witness :
    (afterAdd emptyStore "a" "" "2024-07-15" "Low").task_list.map TaskRec.id = seqIds 1 ∧
    ((afterAdd emptyStore "a" "" "2024-07-15" "Low").task_list.map TaskRec.id).Nodup ∧
    (∀ (st0 : Store) (t d dd p : String) (st2 : Store) (r : Option TaskRec),
      add_task st0 t d dd p = Except.ok (st2, r) →
      st2.task_list = st0.task_list ++ [newTask st0.task_list t d dd p] ∧
      (st0.task_list = [] → (newTask st0.task_list t d dd p).id = 1) ∧
      (¬st0.task_list = [] →
        ((newTask st0.task_list t d dd p).id - 1) ∈ st0.task_list.map TaskRec.id ∧
        ∀ x ∈ st0.task_list.map TaskRec.id, x ≤ (newTask st0.task_list t d dd p).id - 1)) ∧
    (∀ (S : List TaskRec) (f : Option String) (lastR : TaskRec) (t d dd p : String)
        (st2 : Store) (r : Option TaskRec),
      List.Sublist S (afterAdd emptyStore "a" "" "2024-07-15" "Low").task_list →
      (afterAdd emptyStore "a" "" "2024-07-15" "Low").task_list.getLast? = some lastR →
      lastR ∈ S →
      add_task { task_list := S, file := f } t d dd p = Except.ok (st2, r) →
      st2.task_list = S ++ [newTask S t d dd p] ∧
      (newTask S t d dd p).id = ((1 : Nat) : Int) + 1 ∧
      (newTask S t d dd p).id
        ∉ (afterAdd emptyStore "a" "" "2024-07-15" "Low").task_list.map TaskRec.id) :=
  add_task_ids_monotone [⟨"a", "", "2024-07-15", "Low"⟩]
    (afterAdd emptyStore "a" "" "2024-07-15" "Low") (by rfl)

set_option maxRecDepth 100000 in
/-- C1 counterexample: two successful adds from an empty store assign ids 1
and 2; after removing the record with id 2 out-of-band (leaving only the
record with id 1), the next successful add assigns id 2 again.  So under
out-of-band removal of previously added records the program can reuse an
id, refuting the unconditional "an id is never reused even if earlier
records were removed out-of-band". -/
theorem add_task_id_reuse_counterexample :
    addsFrom emptyStore [⟨"a", "", "2024-07-15", "Low"⟩, ⟨"b", "", "2024-07-15", "Low"⟩]
      = some { task_list := [⟨1, "a", "", "2024-07-15", "Low"⟩,
                             ⟨2, "b", "", "2024-07-15", "Low"⟩],
               file := some (save_to_json [⟨1, "a", "", "2024-07-15", "Low"⟩,
                             ⟨2, "b", "", "2024-07-15", "Low"⟩]) } ∧
    add_task { task_list := [⟨1, "a", "", "2024-07-15", "Low"⟩], file := none }
        "c" "" "2024-07-15" "Low"
      = Except.ok ({ task_list := [⟨1, "a", "", "2024-07-15", "Low"⟩,
                                   ⟨2, "c", "", "2024-07-15", "Low"⟩],
                     file := some (save_to_json [⟨1, "a", "", "2024-07-15", "Low"⟩,
                                   ⟨2, "c", "", "2024-07-15", "Low"⟩]) }, none) ∧
    (⟨2, "b", "", "2024-07-15", "Low"⟩ : TaskRec).id
      = (⟨2, "c", "", "2024-07-15", "Low"⟩ : TaskRec).id :=
  ⟨by rfl, by rfl, rfl⟩


theorem char_toNat_lt (c : Char) : c.toNat < 0x110000 := by
  have h := c.valid
  simp only [UInt32.isValidChar, Nat.isValidChar] at h
  simp only [Char.toNat]
  rcases h with h | h <;> omega

theorem char_not_surrogate (c : Char) : c.toNat < 0xD800 ∨ 0xE000 ≤ c.toNat := by
  have h := c.valid
  simp only [UInt32.isValidChar, Nat.isValidChar] at h
  simp only [Char.toNat]
  rcases h with h | h
  · exact Or.inl h
  · right; omega

theorem skipWs_cons_not_ws (c : Char) (cs : List Char)
    (h : ¬(c = ' ' ∨ c = '\t' ∨ c = '\n' ∨ c = '\r')) : skipWs (c :: cs) = c :: cs := by
  simp [skipWs, h]

theorem skipWs_replicate_space (n : Nat) (cs : List Char) :
    skipWs (List.replicate n ' ' ++ cs) = skipWs cs := by
  induction n with
  | zero => simp
  | succ m ih => simp [List.replicate_succ, skipWs, ih]

theorem skipWs_nlind (k : Nat) (cs : List Char) : skipWs (nlind k ++ cs) = skipWs cs := by
  simp [nlind, skipWs, skipWs_replicate_space]

theorem digit_char_toNat (k : Nat) (hk : k < 10) : (Char.ofNat (48 + k)).toNat = 48 + k := by
  interval_cases k <;> decide

theorem hexChar_spec (k : Nat) (hk : k < 16) : hexVal (hexChar k) = some k := by
  interval_cases k <;> decide

theorem hex4Val_hex4 (n : Nat) (hn : n < 65536) :
    hex4Val (hexChar (n / 4096 % 16)) (hexChar (n / 256 % 16))
      (hexChar (n / 16 % 16)) (hexChar (n % 16)) = some n := by
  rw [hex4Val, hexChar_spec _ (by omega), hexChar_spec _ (by omega),
    hexChar_spec _ (by omega), hexChar_spec _ (by omega)]
  simp only [Option.some.injEq]
  omega


theorem readUEsc_bmp (n : Nat) (h1 : n < 65536) (h2 : n < 0xD800 ∨ 0xE000 ≤ n)
    (tail : List Char) : readUEsc (hex4 n ++ tail) = some (Char.ofNat n, tail) := by
  simp only [hex4, List.cons_append, List.nil_append]
  rw [readUEsc, hex4Val_hex4 n h1]
  simp [h2]

theorem readUEsc_pair (v : Nat) (hv : v < 0x100000) (tail : List Char) :
    readUEsc (hex4 (0xD800 + v / 0x400)
        ++ ('\\' :: 'u' :: (hex4 (v % 0x400 + 0xDC00) ++ tail)))
      = some (Char.ofNat (0x10000 + v), tail) := by
  simp only [hex4, List.cons_append, List.nil_append]
  rw [readUEsc, hex4Val_hex4 (0xD800 + v / 0x400) (by omega)]
  dsimp only
  rw [if_neg (by omega), if_pos (by omega)]
  rw [hex4Val_hex4 (v % 0x400 + 0xDC00) (by omega)]
  dsimp only
  have harg : 0x10000 + (0xD800 + v / 0x400 - 0xD800) * 0x400 + (v % 0x400 + 0xDC00 - 0xDC00)
      = 0x10000 + v := by omega
  rw [harg]
  have hc : 0xDC00 ≤ v % 0x400 + 0xDC00 ∧ v % 0x400 + 0xDC00 < 0xE000 := ⟨by omega, by omega⟩
  rw [if_pos hc]
  simp

theorem readStr_escChar (c : Char) (f : Nat) (tail cs' rest : List Char)
    (h : readStr f tail = some (cs', rest)) :
    readStr (f + 1) (escChar c ++ tail) = some (c :: cs', rest) := by
  by_cases hq : c = '"'
  · subst hq; simp [escChar, readStr, readEsc, h]
  by_cases hbs : c = '\\'
  · subst hbs; simp [escChar, readStr, readEsc, h]
  by_cases h8 : c = '\x08'
  · subst h8; simp [escChar, readStr, readEsc, h]
  by_cases h12 : c = '\x0c'
  · subst h12; simp [escChar, readStr, readEsc, h]
  by_cases hn : c = '\n'
  · subst hn; simp [escChar, readStr, readEsc, h]
  by_cases hr : c = '\r'
  · subst hr; simp [escChar, readStr, readEsc, h]
  by_cases ht : c = '\t'
  · subst ht; simp [escChar, readStr, readEsc, h]
  have he0 : escChar c = (if c.toNat < 0x20 then '\\' :: 'u' :: hex4 c.toNat
      else if c.toNat < 0x7f then [c]
      else if c.toNat < 0x10000 then '\\' :: 'u' :: hex4 c.toNat
      else '\\' :: 'u' :: hex4 (0xD800 + (c.toNat - 0x10000) / 0x400)
        ++ '\\' :: 'u' :: hex4 ((c.toNat - 0x10000) % 0x400 + 0xDC00)) := by
    rw [escChar, if_neg hq, if_neg hbs, if_neg h8, if_neg h12, if_neg hn, if_neg hr, if_neg ht]
  by_cases h20 : c.toNat < 0x20
  · rw [he0, if_pos h20]
    simp only [List.cons_append]
    rw [readStr, if_neg (by decide), if_pos rfl]
    have hesc : readEsc ('u' :: (hex4 c.toNat ++ tail)) = readUEsc (hex4 c.toNat ++ tail) := by
      simp [readEsc]
    rw [hesc, readUEsc_bmp c.toNat (by omega) (by omega)]
    dsimp only
    rw [h, Char.ofNat_toNat]
    rfl
  by_cases h7f : c.toNat < 0x7f
  · rw [he0, if_neg h20, if_pos h7f]
    simp only [List.cons_append, List.nil_append]
    rw [readStr, if_neg hq, if_neg hbs, if_neg (by omega)]
    rw [h]
    rfl
  by_cases hbmp : c.toNat < 0x10000
  · rw [he0, if_neg h20, if_neg h7f, if_pos hbmp]
    simp only [List.cons_append]
    rw [readStr, if_neg (by decide), if_pos rfl]
    have hesc : readEsc ('u' :: (hex4 c.toNat ++ tail)) = readUEsc (hex4 c.toNat ++ tail) := by
      simp [readEsc]
    rw [hesc, readUEsc_bmp c.toNat (by omega) (char_not_surrogate c)]
    dsimp only
    rw [h, Char.ofNat_toNat]
    rfl
  · rw [he0, if_neg h20, if_neg h7f, if_neg hbmp]
    simp only [List.cons_append, List.append_assoc]
    rw [readStr, if_neg (by decide), if_pos rfl]
    have hesc : ∀ X : List Char, readEsc ('u' :: X) = readUEsc X := by
      intro X; simp [readEsc]
    rw [hesc]
    have hv : c.toNat - 0x10000 < 0x100000 := by
      have := char_toNat_lt c
      omega
    rw [readUEsc_pair (c.toNat - 0x10000) hv tail]
    dsimp only
    have harg : 0x10000 + (c.toNat - 0x10000) = c.toNat := by omega
    rw [harg, h, Char.ofNat_toNat]
    rfl

theorem readStr_escList (cs : List Char) : ∀ (f : Nat) (rest : List Char),
    readStr (f + cs.length + 1) (escList cs ++ '"' :: rest) = some (cs, rest) := by
  induction cs with
  | nil =>
    intro f rest
    simp [escList, readStr]
  | cons c cs' ih =>
    intro f rest
    have hf : f + (c :: cs').length + 1 = (f + cs'.length + 1) + 1 := by
      simp only [List.length_cons]
      omega
    have hesc : escList (c :: cs') ++ '"' :: rest = escChar c ++ (escList cs' ++ '"' :: rest) := by
      simp [escList]
    rw [hf, hesc]
    exact readStr_escChar c (f + cs'.length + 1) _ cs' rest (ih f rest)

set_option maxHeartbeats 1000000 in
theorem escChar_length_pos (c : Char) : 1 ≤ (escChar c).length := by
  rw [escChar]
  split_ifs <;> simp [hex4]

theorem le_escList_length (cs : List Char) : cs.length ≤ (escList cs).length := by
  induction cs with
  | nil => simp [escList]
  | cons c cs' ih =>
    simp only [escList, List.length_append, List.length_cons]
    have := escChar_length_pos c
    omega

theorem readStr_full (F : Nat) (cs rest : List Char) (hF : cs.length + 1 ≤ F) :
    readStr F (escList cs ++ '"' :: rest) = some (cs, rest) := by
  obtain ⟨f, rfl⟩ : ∃ f, F = f + cs.length + 1 := ⟨F - cs.length - 1, by omega⟩
  exact readStr_escList cs f rest


theorem noFracExp_of_boundary (cs : List Char) (h : fracBoundary cs) : noFracExp cs = true := by
  match cs with
  | [] => rfl
  | c :: cs' =>
    obtain ⟨-, h2, h3, h4⟩ := h
    simp [noFracExp, h2, h3, h4]

theorem readDigits_stop (cs : List Char) (acc : Nat) (h : fracBoundary cs) :
    readDigits cs acc = (acc, cs) := by
  match cs with
  | [] => rfl
  | c :: cs' =>
    obtain ⟨h1, -, -, -⟩ := h
    simp [readDigits, h1]

theorem readDigits_aux (m : Nat) : ∀ (fuel : Nat), m < fuel → ∀ (acc : Nat) (rest : List Char),
    readDigits (natToDigitsAux fuel m ++ rest) acc
      = readDigits rest (acc * 10 ^ (natToDigitsAux fuel m).length + m) := by
  induction m using Nat.strong_induction_on with
  | _ m ih =>
    intro fuel hf acc rest
    match fuel with
    | 0 => omega
    | fuel + 1 =>
      by_cases hm : m < 10
      · rw [natToDigitsAux, if_pos hm]
        simp only [List.cons_append, List.nil_append, List.length_cons, List.length_nil]
        rw [readDigits]
        have htn : (Char.ofNat (48 + m)).toNat = 48 + m := digit_char_toNat m hm
        rw [if_pos (by simp only [isDig, htn]; omega : isDig (Char.ofNat (48 + m)))]
        simp only [digitVal, htn, pow_one]
        congr 1
        omega
      · rw [natToDigitsAux, if_neg hm]
        rw [List.append_assoc]
        have hdiv : m / 10 < m := Nat.div_lt_self (by omega) (by omega)
        rw [ih (m / 10) hdiv fuel (by omega)]
        simp only [List.cons_append, List.nil_append]
        rw [readDigits]
        have htn : (Char.ofNat (48 + m % 10)).toNat = 48 + m % 10 :=
          digit_char_toNat (m % 10) (by omega)
        rw [if_pos (by simp only [isDig, htn]; omega : isDig (Char.ofNat (48 + m % 10)))]
        simp only [List.length_append, List.length_cons, List.length_nil, digitVal, htn]
        congr 1
        rw [pow_succ, ← Nat.mul_assoc]
        generalize acc * 10 ^ (natToDigitsAux fuel (m / 10)).length = t
        omega

theorem natToDigitsAux_cons (m : Nat) : ∀ (fuel : Nat), m < fuel → 1 ≤ m →
    ∃ (c : Char) (ds : List Char), natToDigitsAux fuel m = c :: ds ∧
      49 ≤ c.toNat ∧ c.toNat ≤ 57 ∧
      ∀ rest : List Char, readDigits (ds ++ rest) (digitVal c) = readDigits rest m := by
  induction m using Nat.strong_induction_on with
  | _ m ih =>
    intro fuel hf hm
    match fuel with
    | 0 => omega
    | fuel + 1 =>
      by_cases hsmall : m < 10
      · refine ⟨Char.ofNat (48 + m), [], by rw [natToDigitsAux, if_pos hsmall], ?_, ?_, ?_⟩
        · rw [digit_char_toNat m hsmall]; omega
        · rw [digit_char_toNat m hsmall]; omega
        · intro rest
          simp only [List.nil_append, digitVal, digit_char_toNat m hsmall]
          congr 1
          omega
      · obtain ⟨c, ds, heq, h49, h57, hrd⟩ :=
          ih (m / 10) (Nat.div_lt_self (by omega) (by omega)) fuel (by omega) (by omega)
        refine ⟨c, ds ++ [Char.ofNat (48 + m % 10)], ?_, h49, h57, ?_⟩
        · rw [natToDigitsAux, if_neg hsmall, heq]
          simp
        · intro rest
          rw [List.append_assoc, hrd]
          simp only [List.cons_append, List.nil_append]
          rw [readDigits]
          have htn : (Char.ofNat (48 + m % 10)).toNat = 48 + m % 10 :=
            digit_char_toNat (m % 10) (by omega)
          rw [if_pos (by simp only [isDig, htn]; omega : isDig (Char.ofNat (48 + m % 10)))]
          simp only [digitVal, htn]
          congr 1
          omega

theorem readPosNum_natToDigits (n : Nat) (rest : List Char) (hb : fracBoundary rest) :
    readPosNum (natToDigits n ++ rest) = some ((n : Int), rest) := by
  match hn : n with
  | 0 =>
    show readPosNum ('0' :: rest) = some (0, rest)
    rw [readPosNum, if_pos rfl, if_pos (noFracExp_of_boundary rest hb)]
  | m + 1 =>
    obtain ⟨c, ds, heq, h49, h57, hrd⟩ :=
      natToDigitsAux_cons (m + 1) (m + 2) (by omega) (by omega)
    rw [natToDigits, heq]
    simp only [List.cons_append]
    rw [readPosNum]
    rw [if_neg (by intro hc; rw [hc] at h49; exact absurd h49 (by decide))]
    rw [if_pos (by omega : 49 ≤ c.toNat ∧ c.toNat ≤ 57)]
    rw [hrd rest, readDigits_stop rest _ hb]
    dsimp only
    rw [if_pos (noFracExp_of_boundary rest hb)]

theorem readNum_intChars (i : Int) (rest : List Char) (hb : fracBoundary rest) :
    readNum (intChars i ++ rest) = some (i, rest) := by
  by_cases hneg : i < 0
  · rw [intChars, if_pos hneg]
    simp only [List.cons_append]
    rw [readNum, if_pos rfl]
    rw [readPosNum_natToDigits (-i).toNat rest hb]
    have hi : -(((-i).toNat : Nat) : Int) = i := by omega
    simp only [Option.map, hi]
  · rw [intChars, if_neg hneg]
    obtain ⟨c, ds, heq, hds⟩ : ∃ c ds, natToDigits i.toNat = c :: ds ∧
        48 ≤ c.toNat ∧ c.toNat ≤ 57 := by
      match hi : i.toNat with
      | 0 => exact ⟨'0', [], rfl, by decide⟩
      | m + 1 =>
        obtain ⟨c, ds, heq, h49, h57, -⟩ :=
          natToDigitsAux_cons (m + 1) (m + 2) (by omega) (by omega)
        exact ⟨c, ds, heq, by omega, by omega⟩
    rw [heq]
    simp only [List.cons_append]
    rw [readNum, if_neg (by intro hc; rw [hc] at hds; exact absurd hds.1 (by decide))]
    rw [← List.cons_append, ← heq, readPosNum_natToDigits i.toNat rest hb]
    have hi : ((i.toNat : Nat) : Int) = i := by omega
    rw [hi]

theorem parseVal_str (f : Nat) (s : String) (rest : List Char) :
    parseVal (f + 1) (strChars s ++ rest) = some (JVal.jstr s, rest) := by
  have hshape : strChars s ++ rest = '"' :: (escList s.data ++ '"' :: rest) := by
    simp [strChars]
  rw [hshape, parseVal, if_pos rfl]
  rw [readStr_full _ _ rest ?hF]
  case hF =>
    have h1 := le_escList_length s.data
    simp only [List.length_append, List.length_cons]
    omega
  rfl

theorem intChars_head (i : Int) : ∃ (c : Char) (ds : List Char),
    intChars i = c :: ds ∧ (c.toNat = 45 ∨ (48 ≤ c.toNat ∧ c.toNat ≤ 57)) := by
  by_cases hneg : i < 0
  · exact ⟨'-', natToDigits (-i).toNat, by rw [intChars, if_pos hneg], Or.inl (by decide)⟩
  · have : ∃ c ds, natToDigits i.toNat = c :: ds ∧ 48 ≤ c.toNat ∧ c.toNat ≤ 57 := by
      match hi : i.toNat with
      | 0 => exact ⟨'0', [], rfl, by decide⟩
      | m + 1 =>
        obtain ⟨c, ds, heq, h49, h57, -⟩ :=
          natToDigitsAux_cons (m + 1) (m + 2) (by omega) (by omega)
        exact ⟨c, ds, heq, by omega, by omega⟩
    obtain ⟨c, ds, heq, hb⟩ := this
    exact ⟨c, ds, by rw [intChars, if_neg hneg, heq], Or.inr hb⟩

theorem parseVal_int (f : Nat) (i : Int) (rest : List Char) (hb : fracBoundary rest) :
    parseVal (f + 1) (intChars i ++ rest) = some (JVal.jnum i, rest) := by
  obtain ⟨c, ds, heq, hc⟩ := intChars_head i
  have hshape : intChars i ++ rest = c :: (ds ++ rest) := by rw [heq]; rfl
  rw [hshape, parseVal]
  rw [if_neg (by intro h; rw [h] at hc; revert hc; decide)]
  rw [if_neg (by intro h; rw [h] at hc; revert hc; decide)]
  rw [if_neg (by intro h; rw [h] at hc; revert hc; decide)]
  rw [if_neg (by intro h; rw [h] at hc; revert hc; decide)]
  rw [if_neg (by intro h; rw [h] at hc; revert hc; decide)]
  rw [if_neg (by intro h; rw [h] at hc; revert hc; decide)]
  rw [if_pos (by
    rcases hc with hc | hc
    · left
      have : c = '-' := by
        have hv := Char.ofNat_toNat c
        rw [hc] at hv
        exact hv.symm ▸ rfl
      exact this
    · right
      simp only [isDig]
      omega)]
  rw [← hshape, readNum_intChars i rest hb]
  rfl

theorem strChars_cons (k : String) (W : List Char) :
    strChars k ++ W = '"' :: (escList k.data ++ '"' :: W) := by
  simp [strChars]

theorem skipWs_space (Y : List Char) : skipWs (' ' :: Y) = skipWs Y := by
  simp [skipWs]

theorem skipWs_strChars (s : String) (tl : List Char) :
    skipWs (strChars s ++ tl) = strChars s ++ tl := by
  rw [strChars_cons]
  exact skipWs_cons_not_ws _ _ (by decide)

theorem skipWs_intChars (i : Int) (tl : List Char) :
    skipWs (intChars i ++ tl) = intChars i ++ tl := by
  obtain ⟨c, ds, heq, hc⟩ := intChars_head i
  rw [heq]
  simp only [List.cons_append]
  refine skipWs_cons_not_ws _ _ ?_
  intro h
  rcases h with h | h | h | h <;> (rw [h] at hc; revert hc; decide)

theorem pm_mid (f : Nat) (k : String) (vchars : List Char) (v : JVal) (nxt : List Char)
    (ms : List (String × JVal)) (r : List Char)
    (hsw : skipWs (vchars ++ ',' :: (nlind 2 ++ nxt)) = vchars ++ ',' :: (nlind 2 ++ nxt))
    (hv : parseVal f (vchars ++ ',' :: (nlind 2 ++ nxt)) = some (v, ',' :: (nlind 2 ++ nxt)))
    (hnx : parseMembers f (skipWs nxt) = some (ms, r)) :
    parseMembers (f + 1) (strChars k ++ ':' :: ' ' :: (vchars ++ ',' :: (nlind 2 ++ nxt)))
      = some ((k, v) :: ms, r) := by
  rw [strChars_cons, parseMembers, if_pos rfl]
  rw [readStr_full _ _ _ (by
    have := le_escList_length k.data
    simp only [List.length_append, List.length_cons]
    omega)]
  dsimp only
  rw [skipWs_cons_not_ws ':' _ (by decide)]
  dsimp only
  rw [if_neg (by simp)]
  rw [skipWs_space, hsw, hv]
  dsimp only
  rw [skipWs_cons_not_ws ',' _ (by decide)]
  dsimp only
  rw [if_pos rfl, skipWs_nlind, hnx]
  rfl

theorem pm_last (f : Nat) (k : String) (vchars : List Char) (v : JVal) (rest : List Char)
    (hsw : skipWs (vchars ++ (nlind 1 ++ rbraceChar :: rest))
      = vchars ++ (nlind 1 ++ rbraceChar :: rest))
    (hv : parseVal f (vchars ++ (nlind 1 ++ rbraceChar :: rest))
      = some (v, nlind 1 ++ rbraceChar :: rest)) :
    parseMembers (f + 1)
      (strChars k ++ ':' :: ' ' :: (vchars ++ (nlind 1 ++ rbraceChar :: rest)))
      = some ([(k, v)], rest) := by
  rw [strChars_cons, parseMembers, if_pos rfl]
  rw [readStr_full _ _ _ (by
    have := le_escList_length k.data
    simp only [List.length_append, List.length_cons]
    omega)]
  dsimp only
  rw [skipWs_cons_not_ws ':' _ (by decide)]
  dsimp only
  rw [if_neg (by simp)]
  rw [skipWs_space, hsw, hv]
  dsimp only
  rw [skipWs_nlind, skipWs_cons_not_ws _ _ (by decide)]
  dsimp only
  rw [if_neg (by decide), if_pos rfl]

theorem fracBoundary_comma (X : List Char) : fracBoundary (',' :: X) :=
  ⟨by decide, by decide, by decide, by decide⟩

theorem parseVal_task (f : Nat) (t : TaskRec) (rest : List Char) :
    parseVal (f + 7) (renderTaskChars t ++ rest) = some (taskJVal t, rest) := by
  have h5 : parseMembers (f + 1 + 1) (strChars "priority" ++ ':' :: ' ' :: (strChars t.priority ++ (nlind 1 ++ rbraceChar :: rest))) = some ([("priority", JVal.jstr t.priority)], rest) :=
    pm_last (f + 1) "priority" (strChars t.priority) (JVal.jstr t.priority) rest
      (skipWs_strChars t.priority _) (parseVal_str f t.priority _)
  have h4 : parseMembers (f + 1 + 1 + 1) (strChars "due_date" ++ ':' :: ' ' :: (strChars t.due_date ++ ',' :: (nlind 2 ++ (strChars "priority" ++ ':' :: ' ' :: (strChars t.priority ++ (nlind 1 ++ rbraceChar :: rest)))))) = some ([("due_date", JVal.jstr t.due_date), ("priority", JVal.jstr t.priority)], rest) :=
    pm_mid (f + 1 + 1) "due_date" (strChars t.due_date) (JVal.jstr t.due_date) _ _ rest
      (skipWs_strChars t.due_date _) (parseVal_str (f + 1) t.due_date _)
      (by rw [skipWs_strChars]; exact h5)
  have h3 : parseMembers (f + 1 + 1 + 1 + 1) (strChars "description" ++ ':' :: ' ' :: (strChars t.description ++ ',' :: (nlind 2 ++ (strChars "due_date" ++ ':' :: ' ' :: (strChars t.due_date ++ ',' :: (nlind 2 ++ (strChars "priority" ++ ':' :: ' ' :: (strChars t.priority ++ (nlind 1 ++ rbraceChar :: rest))))))))) = some ([("description", JVal.jstr t.description), ("due_date", JVal.jstr t.due_date), ("priority", JVal.jstr t.priority)], rest) :=
    pm_mid (f + 1 + 1 + 1) "description" (strChars t.description) (JVal.jstr t.description)
      _ _ rest
      (skipWs_strChars t.description _) (parseVal_str (f + 1 + 1) t.description _)
      (by rw [skipWs_strChars]; exact h4)
  have h2 : parseMembers (f + 1 + 1 + 1 + 1 + 1) (strChars "title" ++ ':' :: ' ' :: (strChars t.title ++ ',' :: (nlind 2 ++ (strChars "description" ++ ':' :: ' ' :: (strChars t.description ++ ',' :: (nlind 2 ++ (strChars "due_date" ++ ':' :: ' ' :: (strChars t.due_date ++ ',' :: (nlind 2 ++ (strChars "priority" ++ ':' :: ' ' :: (strChars t.priority ++ (nlind 1 ++ rbraceChar :: rest)))))))))))) = some ([("title", JVal.jstr t.title), ("description", JVal.jstr t.description), ("due_date", JVal.jstr t.due_date), ("priority", JVal.jstr t.priority)], rest) :=
    pm_mid (f + 1 + 1 + 1 + 1) "title" (strChars t.title) (JVal.jstr t.title) _ _ rest
      (skipWs_strChars t.title _) (parseVal_str (f + 1 + 1 + 1) t.title _)
      (by rw [skipWs_strChars]; exact h3)
  have h1 : parseMembers (f + 1 + 1 + 1 + 1 + 1 + 1) (strChars "id" ++ ':' :: ' ' :: (intChars t.id ++ ',' :: (nlind 2 ++ (strChars "title" ++ ':' :: ' ' :: (strChars t.title ++ ',' :: (nlind 2 ++ (strChars "description" ++ ':' :: ' ' :: (strChars t.description ++ ',' :: (nlind 2 ++ (strChars "due_date" ++ ':' :: ' ' :: (strChars t.due_date ++ ',' :: (nlind 2 ++ (strChars "priority" ++ ':' :: ' ' :: (strChars t.priority ++ (nlind 1 ++ rbraceChar :: rest))))))))))))))) = some ([("id", JVal.jnum t.id), ("title", JVal.jstr t.title), ("description", JVal.jstr t.description), ("due_date", JVal.jstr t.due_date), ("priority", JVal.jstr t.priority)], rest) :=
    pm_mid (f + 1 + 1 + 1 + 1 + 1) "id" (intChars t.id) (JVal.jnum t.id) _ _ rest
      (skipWs_intChars t.id _) (parseVal_int (f + 1 + 1 + 1 + 1) t.id _ (fracBoundary_comma _))
      (by rw [skipWs_strChars]; exact h2)
  have hshape : renderTaskChars t ++ rest = lbraceChar :: (nlind 2 ++ (strChars "id" ++ ':' :: ' ' :: (intChars t.id ++ ',' :: (nlind 2 ++ (strChars "title" ++ ':' :: ' ' :: (strChars t.title ++ ',' :: (nlind 2 ++ (strChars "description" ++ ':' :: ' ' :: (strChars t.description ++ ',' :: (nlind 2 ++ (strChars "due_date" ++ ':' :: ' ' :: (strChars t.due_date ++ ',' :: (nlind 2 ++ (strChars "priority" ++ ':' :: ' ' :: (strChars t.priority ++ (nlind 1 ++ rbraceChar :: rest)))))))))))))))) := by
    simp [renderTaskChars, memberChars, List.append_assoc, List.cons_append]
  rw [hshape, parseVal]
  rw [if_neg (by decide), if_neg (by decide), if_pos rfl]
  rw [skipWs_nlind, skipWs_strChars]
  rw [strChars_cons "id"]
  dsimp only
  rw [if_neg (by decide)]
  rw [← strChars_cons "id", h1]
  rfl

theorem skipWs_newline (Y : List Char) : skipWs ('\n' :: Y) = skipWs Y := by
  simp [skipWs]

theorem skipWs_renderTask (t : TaskRec) (Y : List Char) :
    skipWs (renderTaskChars t ++ Y) = renderTaskChars t ++ Y := by
  simp only [renderTaskChars, List.cons_append]
  exact skipWs_cons_not_ws _ _ (by decide)

theorem parseElems_tasks (ts : List TaskRec) : ∀ (t : TaskRec) (f : Nat) (rest : List Char),
    parseElems (f + ts.length + 8) (renderTaskChars t ++ (renderRest ts ++ rest))
      = some ((t :: ts).map taskJVal, rest) := by
  induction ts with
  | nil =>
    intro t f rest
    have hr : renderRest [] ++ rest = '\n' :: (']' :: rest) := by
      simp [renderRest, nlind]
    rw [hr]
    show parseElems ((f + 7) + 1) (renderTaskChars t ++ ('\n' :: (']' :: rest)))
      = some ([t].map taskJVal, rest)
    rw [parseElems, parseVal_task f t ('\n' :: (']' :: rest))]
    dsimp only
    rw [skipWs_newline, skipWs_cons_not_ws ']' _ (by decide)]
    dsimp only
    rw [if_neg (by decide), if_pos rfl]
    rfl
  | cons t2 ts2 ih =>
    intro t f rest
    have hr : renderRest (t2 :: ts2) ++ rest
        = ',' :: (nlind 1 ++ (renderTaskChars t2 ++ (renderRest ts2 ++ rest))) := by
      simp [renderRest, List.append_assoc]
    rw [hr]
    show parseElems ((f + ts2.length + 8) + 1)
        (renderTaskChars t ++ (',' :: (nlind 1 ++ (renderTaskChars t2 ++ (renderRest ts2 ++ rest)))))
      = some ((t :: t2 :: ts2).map taskJVal, rest)
    rw [parseElems]
    rw [show (f + ts2.length + 8 : Nat) = (f + ts2.length + 1) + 7 from by omega]
    rw [parseVal_task (f + ts2.length + 1) t _]
    dsimp only
    rw [skipWs_cons_not_ws ',' _ (by decide)]
    dsimp only
    rw [if_pos rfl]
    rw [skipWs_nlind, skipWs_renderTask]
    rw [show ((f + ts2.length + 1) + 7 : Nat) = f + ts2.length + 8 from by omega]
    rw [ih t2 f rest]
    rfl

theorem renderTask_length (t : TaskRec) : 10 ≤ (renderTaskChars t).length := by
  simp only [renderTaskChars, memberChars, strChars, nlind, List.length_cons,
    List.length_append, List.length_replicate]
  omega

theorem renderRest_length (ts : List TaskRec) : 2 + ts.length ≤ (renderRest ts).length := by
  induction ts with
  | nil => simp [renderRest, nlind]
  | cons t2 ts2 ih =>
    have ht := renderTask_length t2
    simp only [renderRest, nlind, List.length_cons, List.length_append,
      List.length_replicate] at *
    omega

theorem json_loads_save (ts : List TaskRec) :
    json_loads (save_to_json ts) = some (JVal.jarr (ts.map taskJVal)) := by
  match ts with
  | [] => rfl
  | t :: ts2 =>
    have hdata : (save_to_json (t :: ts2)).data = renderTasks (t :: ts2) := rfl
    have hlen : (save_to_json (t :: ts2)).length = (renderTasks (t :: ts2)).length := rfl
    rw [json_loads, hdata, hlen]
    have hshape : renderTasks (t :: ts2)
        = '[' :: (nlind 1 ++ (renderTaskChars t ++ (renderRest ts2 ++ []))) := by
      simp [renderTasks, List.append_assoc]
    have hbound : ts2.length + 8 ≤ 2 * (renderTasks (t :: ts2)).length + 1 := by
      have h1 := renderTask_length t
      have h2 := renderRest_length ts2
      rw [hshape]
      simp only [List.length_cons, List.length_append, List.length_nil, nlind,
        List.length_replicate]
      omega
    obtain ⟨f0, hf0⟩ : ∃ f0, 2 * (renderTasks (t :: ts2)).length + 1
        = f0 + ts2.length + 8 :=
      ⟨2 * (renderTasks (t :: ts2)).length + 1 - ts2.length - 8, by omega⟩
    set L := (renderTasks (t :: ts2)).length with hL
    rw [hshape, skipWs_cons_not_ws '[' _ (by decide)]
    rw [show (2 * L + 2 : Nat) = (2 * L + 1) + 1 from rfl]
    rw [parseVal]
    rw [if_neg (by decide), if_pos rfl]
    rw [skipWs_nlind, skipWs_renderTask]
    simp only [renderTaskChars, List.cons_append]
    rw [if_neg (by decide)]
    rw [show (lbraceChar :: ((nlind 2 ++ memberChars "id" (intChars t.id)
        ++ ',' :: nlind 2 ++ memberChars "title" (strChars t.title)
        ++ ',' :: nlind 2 ++ memberChars "description" (strChars t.description)
        ++ ',' :: nlind 2 ++ memberChars "due_date" (strChars t.due_date)
        ++ ',' :: nlind 2 ++ memberChars "priority" (strChars t.priority)
        ++ nlind 1 ++ [rbraceChar]) ++ (renderRest ts2 ++ []))
      : List Char) = renderTaskChars t ++ (renderRest ts2 ++ []) from by
        simp [renderTaskChars, List.cons_append]]
    rw [hf0, parseElems_tasks ts2 t f0 []]
    rfl

theorem taskOfJson_taskJVal (t : TaskRec) : taskOfJson (taskJVal t) = some t := rfl

theorem tasksOfJson_map (ts : List TaskRec) :
    tasksOfJson (JVal.jarr (ts.map taskJVal)) = some ts := by
  induction ts with
  | nil => rfl
  | cons t ts2 ih =>
    simp only [tasksOfJson, List.map_cons, List.mapM_cons, taskOfJson_taskJVal] at *
    rw [ih]
    rfl

/-- C3: persisting any collection of task records with `save_to_json` and
reloading the written text with `load_from_json` yields the same collection:
the same records, in the same order, with the same field values. -/
theorem save_load_round_trip (ts : List TaskRec) :
    load_from_json (some (save_to_json ts)) = some ts := by
  rw [load_from_json, json_loads_save ts]
  simp only [Option.bind]
  exact tasksOfJson_map ts

/-- C5 witness: the ordering statement at a concrete input where both the
title and the priority are invalid: the reported error is the title one. -/
theorem add_task_validation_order_witness :
    (add_task emptyStore "" "d" "2024-07-15" "low" = Except.error (title_msg, emptyStore) ↔
      ("" : String) = "") ∧
    (add_task emptyStore "" "d" "2024-07-15" "low" = Except.error (priority_msg, emptyStore) ↔
      ¬("" : String) = "" ∧ "low" ∉ priorities) ∧
    (add_task emptyStore "" "d" "2024-07-15" "low" = Except.error (due_date_msg, emptyStore) ↔
      ¬("" : String) = "" ∧ "low" ∈ priorities ∧ valid_Ymd "2024-07-15" = false) :=
  add_task_validation_order emptyStore "" "d" "2024-07-15" "low"
